import Mathlib

/-!
Shallow embedding of the GeoChat parameter-normalization engine:
`normalize_parameters` in visual.py together with the shape-specific
normalizers in triangle.py, rectangle.py and circle.py, and the numeric
coercion function `safe_eval_parameter` in visual.py.

Modeling conventions:
* Python floats are modeled as real numbers.
* A parameter dictionary is a record with one optional field per
  parameter name the engine reads or writes; `none` stands for "key
  absent, or present with value None" (every code path discards None
  values before inspecting a key, so the two are indistinguishable).
* Raw maps are restricted to numeric values, plus the `angles` list and
  the `function` value.  `handle_visualization` coerces every value with
  `safe_eval_parameter` before normalization, and the conversion loop in
  `normalize_triangle_parameters` float-converts or deletes string
  values, so numeric strings behave exactly like numbers downstream; a
  string that `float()` rejects (such as sin/cos/tan) is kept abstract.
* A Python exception raised by `math.sqrt`, `math.acos` or a zero
  division is modeled by `Option`/`Except`: `none` where the enclosing
  code catches it (the derivation loops), `Except.error` where it
  propagates out of `normalize_parameters`.
-/

set_option maxHeartbeats 1000000

noncomputable section
open scoped Classical

/-- A value held under the `function` key: a number, or a string that
`float()` cannot parse (the valid values "sin"/"cos"/"tan" are such
strings; parsable numeric strings are modeled as already numeric). -/
inductive FVal where
  | num (x : ℝ)
  | str (s : String)

/-- A value held under the `angles` key: a list of numbers, or a list
containing an entry that `float()` rejects. -/
inductive AngVal where
  | nums (l : List ℝ)
  | malformed

/-- A parameter dictionary: one optional field per parameter name used by
the normalization code. -/
@[ext] structure ParamMap where
  radius : Option ℝ := none
  diameter : Option ℝ := none
  circumference : Option ℝ := none
  arc1 : Option ℝ := none
  arc2 : Option ℝ := none
  angle : Option ℝ := none
  width : Option ℝ := none
  height : Option ℝ := none
  side : Option ℝ := none
  area : Option ℝ := none
  diagonal : Option ℝ := none
  perimeter : Option ℝ := none
  side1 : Option ℝ := none
  side2 : Option ℝ := none
  side3 : Option ℝ := none
  hypotenuse : Option ℝ := none
  leg1 : Option ℝ := none
  leg2 : Option ℝ := none
  side_a : Option ℝ := none
  side_b : Option ℝ := none
  side_c : Option ℝ := none
  a : Option ℝ := none
  b : Option ℝ := none
  c : Option ℝ := none
  base : Option ℝ := none
  equal_sides : Option ℝ := none
  ratio : Option ℝ := none
  corresponding_side1 : Option ℝ := none
  corresponding_side2 : Option ℝ := none
  angles : Option AngVal := none
  function : Option FVal := none

/-- The empty parameter dictionary. -/
def emptyMap : ParamMap := {}

/-- Parameter names that occur in required lists and derivation tables. -/
inductive PName where
  | radius | diameter | circumference | arc1 | arc2 | angle
  | width | height | side | area | diagonal | perimeter
  | side1 | side2 | hypotenuse
  | side_a | side_b | side_c | base | equal_sides
  | ratio | corresponding_side1 | corresponding_side2
  | function
deriving DecidableEq

/-- `name in normalized`: key presence. -/
def pmem (m : ParamMap) : PName → Bool
  | .radius => m.radius.isSome
  | .diameter => m.diameter.isSome
  | .circumference => m.circumference.isSome
  | .arc1 => m.arc1.isSome
  | .arc2 => m.arc2.isSome
  | .angle => m.angle.isSome
  | .width => m.width.isSome
  | .height => m.height.isSome
  | .side => m.side.isSome
  | .area => m.area.isSome
  | .diagonal => m.diagonal.isSome
  | .perimeter => m.perimeter.isSome
  | .side1 => m.side1.isSome
  | .side2 => m.side2.isSome
  | .hypotenuse => m.hypotenuse.isSome
  | .side_a => m.side_a.isSome
  | .side_b => m.side_b.isSome
  | .side_c => m.side_c.isSome
  | .base => m.base.isSome
  | .equal_sides => m.equal_sides.isSome
  | .ratio => m.ratio.isSome
  | .corresponding_side1 => m.corresponding_side1.isSome
  | .corresponding_side2 => m.corresponding_side2.isSome
  | .function => m.function.isSome

/-- `normalized[name]` as a number (the only way the engine reads these
keys); for `function` this also encodes the isinstance(int, float) test. -/
def pNum (m : ParamMap) : PName → Option ℝ
  | .radius => m.radius
  | .diameter => m.diameter
  | .circumference => m.circumference
  | .arc1 => m.arc1
  | .arc2 => m.arc2
  | .angle => m.angle
  | .width => m.width
  | .height => m.height
  | .side => m.side
  | .area => m.area
  | .diagonal => m.diagonal
  | .perimeter => m.perimeter
  | .side1 => m.side1
  | .side2 => m.side2
  | .hypotenuse => m.hypotenuse
  | .side_a => m.side_a
  | .side_b => m.side_b
  | .side_c => m.side_c
  | .base => m.base
  | .equal_sides => m.equal_sides
  | .ratio => m.ratio
  | .corresponding_side1 => m.corresponding_side1
  | .corresponding_side2 => m.corresponding_side2
  | .function =>
    match m.function with
    | some (.num x) => some x
    | _ => none

/-- `normalized[name] = v` for a numeric value. -/
def pset (m : ParamMap) : PName → ℝ → ParamMap
  | .radius, v => { m with radius := some v }
  | .diameter, v => { m with diameter := some v }
  | .circumference, v => { m with circumference := some v }
  | .arc1, v => { m with arc1 := some v }
  | .arc2, v => { m with arc2 := some v }
  | .angle, v => { m with angle := some v }
  | .width, v => { m with width := some v }
  | .height, v => { m with height := some v }
  | .side, v => { m with side := some v }
  | .area, v => { m with area := some v }
  | .diagonal, v => { m with diagonal := some v }
  | .perimeter, v => { m with perimeter := some v }
  | .side1, v => { m with side1 := some v }
  | .side2, v => { m with side2 := some v }
  | .hypotenuse, v => { m with hypotenuse := some v }
  | .side_a, v => { m with side_a := some v }
  | .side_b, v => { m with side_b := some v }
  | .side_c, v => { m with side_c := some v }
  | .base, v => { m with base := some v }
  | .equal_sides, v => { m with equal_sides := some v }
  | .ratio, v => { m with ratio := some v }
  | .corresponding_side1, v => { m with corresponding_side1 := some v }
  | .corresponding_side2, v => { m with corresponding_side2 := some v }
  | .function, v => { m with function := some (.num v) }

/-- The supported shape keys. -/
inductive ShapeKey where
  | circle | circle_angle | rectangle | right_triangle
  | equilateral_triangle | isosceles_triangle | general_triangle
  | similar_triangles | trigonometric
deriving DecidableEq

/-- `shape in TRIANGLE_NORMALIZATION_RULES`. -/
def isTriangleShape : ShapeKey → Bool
  | .right_triangle | .equilateral_triangle | .similar_triangles
  | .general_triangle | .isosceles_triangle => true
  | _ => false

/-- Exceptions escaping the normalization pipeline.  The original
message texts are noted next to each constructor. -/
inductive NormErr where
  /-- ValueError: For 30-60-90 triangle, provide one side. -/
  | provideOneSide
  /-- ValueError: Provided (hypotenuse or side1 or side2) does not match
  30-60-90 ratio. -/
  | ratioMismatch (p : PName)
  /-- ValueError: Invalid isosceles triangle parameters -/
  | invalidIsosceles
  /-- ValueError raised by math.sqrt or math.acos: math domain error -/
  | mathDomain
  /-- ValueError: Missing or invalid parameter: (name) -/
  | missingOrInvalid (p : PName)
deriving DecidableEq

/-- `math.sqrt`: raises ValueError on a negative argument. -/
def pysqrt (x : ℝ) : Option ℝ := if x < 0 then none else some (Real.sqrt x)

/-- `math.acos`: raises ValueError outside the interval from -1 to 1. -/
def pyacos (x : ℝ) : Option ℝ :=
  if x < -1 ∨ 1 < x then none else some (Real.arccos x)

/-- Float division: raises ZeroDivisionError on a zero divisor. -/
def pydiv (x y : ℝ) : Option ℝ := if y = 0 then none else some (x / y)

/-- `math.radians`. -/
def radians (d : ℝ) : ℝ := d * Real.pi / 180

/-- `math.degrees`. -/
def degrees (r : ℝ) : ℝ := r * 180 / Real.pi

/-- `math.isclose x y` with rel_tol = r and the default abs_tol = 0. -/
def isclose (x y r : ℝ) : Prop := |x - y| ≤ r * max |x| |y|

/-- `herons_formula` from triangle.py (`math.sqrt` raises when the
radicand is negative). -/
def herons_formula (a b c : ℝ) : Option ℝ :=
  let s := (a + b + c) / 2
  pysqrt (s * (s - a) * (s - b) * (s - c))

/-- `is_valid_triangle` from triangle.py. -/
def is_valid_triangle (sides : List ℝ) : Prop :=
  match sides with
  | [a, b, c] => a + b > c ∧ a + c > b ∧ b + c > a ∧ (∀ s ∈ [a, b, c], s > 0)
  | _ => False

/-- One derivation alternative: an ordered source list and a formula;
the formula returns `none` where the Python lambda would raise. -/
structure Rule where
  src : List PName
  formula : List ℝ → Option ℝ

/-- Look up an ordered source list: `some` of the values when every
source key is present (the `all(s in normalized ...)` guard), `none`
otherwise. -/
def getSources (m : ParamMap) : List PName → Option (List ℝ)
  | [] => some []
  | k :: ks =>
    match pNum m k with
    | some v => (getSources m ks).map (fun vs => v :: vs)
    | none => none

/-- Apply one rule: usable only when every source key is present; a
raising formula yields `none`. -/
def applyRule (m : ParamMap) (r : Rule) : Option ℝ :=
  (getSources m r.src).bind r.formula

/-- The inner `for formula in derived[param]` loop: the first
alternative whose sources are present and whose formula succeeds. -/
def firstRule (m : ParamMap) (rules : List Rule) : Option ℝ :=
  rules.findSome? (applyRule m)

/-- `[p for p in required if p not in normalized]`. -/
def missingList (required : List PName) (m : ParamMap) : List PName :=
  required.filter (fun p => !(pmem m p))

/-- One pass of the bounded derivation loop: walk the missing list
computed at pass start, updating the working map as parameters fill. -/
def passOnce (required : List PName) (derived : PName → List Rule)
    (m : ParamMap) : ParamMap :=
  (missingList required m).foldl
    (fun acc p =>
      match firstRule acc (derived p) with
      | some v => pset acc p v
      | none => acc) m

/-- The `while attempts > 0` loop (attempts = 3), stopping early once no
required parameter is missing. -/
def derivationPasses (required : List PName) (derived : PName → List Rule) :
    Nat → ParamMap → ParamMap
  | 0, m => m
  | Nat.succ k, m =>
    if missingList required m = [] then m
    else derivationPasses required derived k (passOnce required derived m)

/-- The required lists of TRIANGLE_NORMALIZATION_RULES (triangle.py);
an unknown shape falls back to the empty rule set. -/
def triRequired : ShapeKey → List PName
  | .right_triangle => []
  | .equilateral_triangle => [.side]
  | .similar_triangles => [.ratio, .corresponding_side1, .corresponding_side2]
  | .general_triangle => [.side_a, .side_b, .side_c]
  | .isosceles_triangle => [.base, .equal_sides]
  | _ => []

/-- The derivation tables of TRIANGLE_NORMALIZATION_RULES (triangle.py),
in declaration order. -/
def triDerived : ShapeKey → PName → List Rule
  | .right_triangle, .side1 =>
    [⟨[.hypotenuse, .side2], fun vs =>
      match vs with | [h, s2] => pysqrt (h ^ 2 - s2 ^ 2) | _ => none⟩,
     ⟨[.hypotenuse, .angle], fun vs =>
      match vs with | [h, ag] => some (h * Real.sin (radians ag)) | _ => none⟩,
     ⟨[.side2, .angle], fun vs =>
      match vs with | [s2, ag] => some (s2 * Real.tan (radians ag)) | _ => none⟩]
  | .right_triangle, .side2 =>
    [⟨[.hypotenuse, .side1], fun vs =>
      match vs with | [h, s1] => pysqrt (h ^ 2 - s1 ^ 2) | _ => none⟩,
     ⟨[.hypotenuse, .angle], fun vs =>
      match vs with | [h, ag] => some (h * Real.cos (radians ag)) | _ => none⟩,
     ⟨[.side1, .angle], fun vs =>
      match vs with | [s1, ag] => pydiv s1 (Real.tan (radians ag)) | _ => none⟩]
  | .right_triangle, .hypotenuse =>
    [⟨[.side1, .side2], fun vs =>
      match vs with | [s1, s2] => pysqrt (s1 ^ 2 + s2 ^ 2) | _ => none⟩,
     ⟨[.side1, .angle], fun vs =>
      match vs with | [s, ag] => pydiv s (Real.sin (radians ag)) | _ => none⟩,
     ⟨[.side2, .angle], fun vs =>
      match vs with | [s, ag] => pydiv s (Real.cos (radians ag)) | _ => none⟩]
  | .equilateral_triangle, .height =>
    [⟨[.side], fun vs =>
      match vs with | [s] => some (Real.sqrt 3 / 2 * s) | _ => none⟩]
  | .equilateral_triangle, .area =>
    [⟨[.side], fun vs =>
      match vs with | [s] => some (Real.sqrt 3 / 4 * s ^ 2) | _ => none⟩]
  | .equilateral_triangle, .side =>
    [⟨[.height], fun vs =>
      match vs with | [h] => some (2 * h / Real.sqrt 3) | _ => none⟩,
     ⟨[.area], fun vs =>
      match vs with | [ar] => pysqrt (4 * ar / Real.sqrt 3) | _ => none⟩]
  | .similar_triangles, .ratio =>
    [⟨[.corresponding_side1, .corresponding_side2], fun vs =>
      match vs with | [s1, s2] => pydiv s1 s2 | _ => none⟩]
  | .general_triangle, .angle =>
    []
  | .general_triangle, .side_a => []
  | .general_triangle, .area =>
    [⟨[.side_a, .side_b, .side_c], fun vs =>
      match vs with | [x, y, z] => herons_formula x y z | _ => none⟩]
  | .general_triangle, .height =>
    [⟨[.area, .side_a], fun vs =>
      match vs with | [ar, x] => pydiv (2 * ar) x | _ => none⟩]
  | .isosceles_triangle, .side_a =>
    [⟨[.base], fun vs => match vs with | [x] => some x | _ => none⟩]
  | .isosceles_triangle, .side_b =>
    [⟨[.equal_sides], fun vs => match vs with | [x] => some x | _ => none⟩]
  | .isosceles_triangle, .side_c =>
    [⟨[.equal_sides], fun vs => match vs with | [x] => some x | _ => none⟩]
  | .isosceles_triangle, .base =>
    [⟨[.side_a], fun vs => match vs with | [x] => some x | _ => none⟩]
  | .isosceles_triangle, .equal_sides =>
    [⟨[.side_b], fun vs => match vs with | [x] => some x | _ => none⟩]
  | _, _ => []

/-- `normalize_circle_parameters` from circle.py.  The copy made on
entry is immediately replaced by the None-dropping comprehension, which
is the identity on the maps modeled here. -/
def normalize_circle_parameters (params : ParamMap) : ParamMap :=
  let normalized := params
  if normalized.radius.isSome then normalized
  else if normalized.diameter.isSome then
    { normalized with radius := some (normalized.diameter.getD 0 / 2) }
  else if normalized.circumference.isSome then
    { normalized with radius := some (normalized.circumference.getD 0 / (2 * Real.pi)) }
  else if normalized.arc1.isSome && normalized.arc2.isSome then
    -- setdefault("radius", 5): radius is absent on this branch
    { normalized with
        radius := some 5
        angle := some ((normalized.arc1.getD 0 + normalized.arc2.getD 0) / 2) }
  else normalized

/-- `normalize_square_parameters` from rectangle.py.  `math.sqrt` on a
negative area raises and propagates to the caller. -/
def normalize_square_parameters (params : ParamMap) :
    Except NormErr ParamMap :=
  let normalized := params
  if normalized.side.isSome then
    .ok { normalized with width := normalized.side, height := normalized.side }
  else if normalized.perimeter.isSome && !normalized.width.isSome then
    .ok { normalized with
          width := some (normalized.perimeter.getD 0 / 4)
          height := some (normalized.perimeter.getD 0 / 4) }
  else if normalized.diagonal.isSome && !normalized.width.isSome then
    .ok { normalized with
          width := some (normalized.diagonal.getD 0 / Real.sqrt 2)
          height := some (normalized.diagonal.getD 0 / Real.sqrt 2) }
  else if normalized.area.isSome && !normalized.width.isSome then
    match pysqrt (normalized.area.getD 0) with
    | some r => .ok { normalized with width := some r, height := some r }
    | none => .error .mathDomain
  else .ok normalized

/-- RECTANGLE_NORMALIZATION_RULES from rectangle.py, width column.
visual.py imports this table but never installs it into
SHAPE_NORMALIZATION_RULES, so normalize_parameters never consults it. -/
def rectangleWidthRules : List Rule :=
  [⟨[.area, .height], fun vs =>
    match vs with | [ar, h] => pydiv ar h | _ => none⟩,
   ⟨[.side], fun vs => match vs with | [s] => some s | _ => none⟩,
   ⟨[.diagonal], fun vs =>
    match vs with | [d] => some (d / Real.sqrt 2) | _ => none⟩,
   ⟨[.perimeter], fun vs => match vs with | [p] => some (p / 4) | _ => none⟩,
   ⟨[.diagonal, .height], fun vs =>
    match vs with | [d, h] => pysqrt (d ^ 2 - h ^ 2) | _ => none⟩,
   ⟨[.perimeter, .height], fun vs =>
    match vs with | [p, h] => some ((p - 2 * h) / 2) | _ => none⟩]

/-- The angles pre-processing at the top of
`normalize_triangle_parameters`: float-convert the list (deleting it if
an entry is rejected) and delete it when its sum is not within rel_tol
0.01 of 180. -/
def anglesStep (m : ParamMap) : ParamMap :=
  match m.angles with
  | some (.nums l) =>
    if isclose l.sum 180 0.01 then m else { m with angles := none }
  | some .malformed => { m with angles := none }
  | none => m

/-- The numeric-conversion loop: on the numeric maps modeled here it
only affects the `function` key, deleting values that `float()`
rejects. -/
def convStep (m : ParamMap) : ParamMap :=
  { m with function :=
      match m.function with
      | some (.num x) => some (.num x)
      | _ => none }

/-- `setdefault`. -/
def osetD (o : Option ℝ) (v : ℝ) : Option ℝ :=
  match o with
  | some x => some x
  | none => some v

/-- First 30-60-90 block of `normalize_triangle_parameters` (the
setdefault-based one). -/
def block3060A (m : ParamMap) : ParamMap :=
  let m :=
    if !m.side1.isSome && !m.side2.isSome && !m.hypotenuse.isSome then
      { m with hypotenuse := some 2 }
    else m
  if m.hypotenuse.isSome then
    { m with
        side1 := osetD m.side1 (m.hypotenuse.getD 0 / 2)
        side2 := osetD m.side2 (m.hypotenuse.getD 0 * Real.sqrt 3 / 2) }
  else if m.side1.isSome then
    { m with
        hypotenuse := osetD m.hypotenuse (m.side1.getD 0 * 2)
        side2 := osetD m.side2 (m.side1.getD 0 * Real.sqrt 3) }
  else if m.side2.isSome then
    { m with
        hypotenuse := osetD m.hypotenuse (m.side2.getD 0 * 2 / Real.sqrt 3)
        side1 := osetD m.side1 (m.side2.getD 0 / Real.sqrt 3) }
  else m

/-- Legacy-name conversion for general triangles: side1/side2/side3 and
a/b/c are popped into side_a/side_b/side_c. -/
def generalAlias (m : ParamMap) : ParamMap :=
  let m := match m.side1 with
    | some v => { m with side_a := some v, side1 := none }
    | none => m
  let m := match m.side2 with
    | some v => { m with side_b := some v, side2 := none }
    | none => m
  let m := match m.side3 with
    | some v => { m with side_c := some v, side3 := none }
    | none => m
  let m := match m.a with
    | some v => { m with side_a := some v, a := none }
    | none => m
  let m := match m.b with
    | some v => { m with side_b := some v, b := none }
    | none => m
  match m.c with
  | some v => { m with side_c := some v, c := none }
  | none => m

/-- Legacy-name conversion: leg1/leg2 are popped into side1/side2. -/
def legAlias (m : ParamMap) : ParamMap :=
  let m := match m.leg1 with
    | some v => { m with side1 := some v, leg1 := none }
    | none => m
  match m.leg2 with
  | some v => { m with side2 := some v, leg2 := none }
  | none => m

/-- Python truthiness of `normalized.get(k)` for a float value. -/
def truthy (o : Option ℝ) : Prop := o.getD 0 ≠ 0

/-- One of the three consistency checks at the end of the second
30-60-90 block, against the value supplied in the original params. -/
def checkRatio (pv : Option ℝ) (nv : ℝ) (name : PName)
    (k : Except NormErr ParamMap) : Except NormErr ParamMap :=
  match pv with
  | some x => if isclose x nv 0.01 then k else .error (.ratioMismatch name)
  | none => k

/-- Second 30-60-90 block: recompute the triple from the first truthy of
hypotenuse/side1/side2, then validate any originally supplied member of
the triple against the recomputed value (rel_tol 0.01). -/
def block3060B (params m : ParamMap) : Except NormErr ParamMap :=
  let step : Except NormErr ParamMap :=
    if truthy m.hypotenuse then
      .ok { m with
            side1 := some (m.hypotenuse.getD 0 / 2)
            side2 := some (m.hypotenuse.getD 0 * Real.sqrt 3 / 2) }
    else if truthy m.side1 then
      .ok { m with
            hypotenuse := some (2 * m.side1.getD 0)
            side2 := some (m.side1.getD 0 * Real.sqrt 3) }
    else if truthy m.side2 then
      .ok { m with
            hypotenuse := some (2 * m.side2.getD 0 / Real.sqrt 3)
            side1 := some (m.side2.getD 0 / Real.sqrt 3) }
    else .error .provideOneSide
  match step with
  | .error e => .error e
  | .ok n =>
    checkRatio params.hypotenuse (n.hypotenuse.getD 0) .hypotenuse
      (checkRatio params.side1 (n.side1.getD 0) .side1
        (checkRatio params.side2 (n.side2.getD 0) .side2 (.ok n)))

/-- The isosceles block: rebuild side_a/side_b/side_c from base and
equal_sides (when both are present), deleting the originals. -/
def isoBlock (m : ParamMap) : Except NormErr ParamMap :=
  if m.base.isSome && m.equal_sides.isSome then
    let n := { m with
               side_a := m.base
               side_b := m.equal_sides
               side_c := m.equal_sides
               base := none
               equal_sides := none }
    if n.side_b ≠ n.side_c then .error .invalidIsosceles else .ok n
  else .ok m

/-- The equilateral block: derive side from height, else from area
(`math.sqrt` on a negative radicand raises and propagates). -/
def equiBlock (m : ParamMap) : Except NormErr ParamMap :=
  match m.height with
  | some h => .ok { m with side := some (2 * h / Real.sqrt 3) }
  | none =>
    match m.area with
    | some ar =>
      match pysqrt (4 * ar / Real.sqrt 3) with
      | some s => .ok { m with side := some s }
      | none => .error .mathDomain
    | none => .ok m

/-- The elif chain of the right-triangle Pythagorean section: local
floats default to 0 and the blank member of a truthy pair is filled.
`math.sqrt` on a negative radicand raises and propagates. -/
def pythElif (m : ParamMap) : Except NormErr ParamMap :=
  let h0 := m.hypotenuse.getD 0
  let s10 := m.side1.getD 0
  let s20 := m.side2.getD 0
  if h0 ≠ 0 ∧ s10 ≠ 0 ∧ s20 = 0 then
    match pysqrt (h0 ^ 2 - s10 ^ 2) with
    | some v => .ok { m with side2 := some v }
    | none => .error .mathDomain
  else if h0 ≠ 0 ∧ s20 ≠ 0 ∧ s10 = 0 then
    match pysqrt (h0 ^ 2 - s20 ^ 2) with
    | some v => .ok { m with side1 := some v }
    | none => .error .mathDomain
  else if s10 ≠ 0 ∧ s20 ≠ 0 ∧ h0 = 0 then
    -- the radicand is nonnegative, math.sqrt cannot raise here
    .ok { m with hypotenuse := some (Real.sqrt (s10 ^ 2 + s20 ^ 2)) }
  else .ok m

/-- The second chance of the Pythagorean section: when exactly two of
the three keys are present, fill the third. -/
def pythProvided (n : ParamMap) : Except NormErr ParamMap :=
  let provided :=
    List.filter (pmem n) [PName.side1, PName.side2, PName.hypotenuse]
  if provided.length = 2 then
    if PName.hypotenuse ∈ provided then
      if PName.side1 ∈ provided then
        match pysqrt ((n.hypotenuse.getD 0) ^ 2 - (n.side1.getD 0) ^ 2) with
        | some v => .ok { n with side2 := some v }
        | none => .error .mathDomain
      else if PName.side2 ∈ provided then
        match pysqrt ((n.hypotenuse.getD 0) ^ 2 - (n.side2.getD 0) ^ 2) with
        | some v => .ok { n with side1 := some v }
        | none => .error .mathDomain
      else .ok n
    else
      -- both legs present: the radicand is nonnegative
      .ok { n with hypotenuse := some (Real.sqrt ((n.side1.getD 0) ^ 2 + (n.side2.getD 0) ^ 2)) }
  else .ok n

/-- The whole right-triangle Pythagorean section. -/
def pythBlock (m : ParamMap) : Except NormErr ParamMap :=
  (pythElif m).bind pythProvided

/-- The body of `normalize_triangle_parameters` after the angles and
conversion steps; `params` is the original dictionary, read again by the
consistency checks of the second 30-60-90 block. -/
def triPre (shape_type : ShapeKey) (n0 : ParamMap) : ParamMap :=
  let n1 :=
    if shape_type = .right_triangle ∧ n0.angles = some (.nums [30, 60, 90])
    then block3060A n0 else n0
  let n2 := if shape_type = .general_triangle then generalAlias n1 else n1
  legAlias n2

/-- The fallible second half of the triangle normalizer, from the second
30-60-90 block to the derivation loop. -/
def triMid (shape_type : ShapeKey) (params n3 : ParamMap) :
    Except NormErr ParamMap :=
  ((if shape_type = .right_triangle ∧ n3.angles = some (.nums [30, 60, 90])
    then block3060B params n3 else .ok n3).bind fun n4 =>
  (if shape_type = .isosceles_triangle then isoBlock n4 else .ok n4).bind
    fun n5 =>
  (if shape_type = .equilateral_triangle then equiBlock n5 else .ok n5).bind
    fun n6 =>
  (if shape_type = .right_triangle then pythBlock n6 else .ok n6).bind
    fun n7 =>
  .ok (derivationPasses (triRequired shape_type) (triDerived shape_type) 3 n7))

/-- The body of normalize_triangle_parameters after the angles and
conversion steps. -/
def triTail (shape_type : ShapeKey) (params n0 : ParamMap) :
    Except NormErr ParamMap :=
  triMid shape_type params (triPre shape_type n0)

/-- `normalize_triangle_parameters` from triangle.py, on the numeric
maps modeled here. -/
def normalize_triangle_parameters (shape_type : ShapeKey)
    (params : ParamMap) : Except NormErr ParamMap :=
  triTail shape_type params (convStep (anglesStep params))

/-- The required lists as SHAPE_NORMALIZATION_RULES in visual.py
actually holds them: the rectangle table is never merged in, and the
circle entry stores the whole two-entry dict from circle.py, so the
required/derived lookups on it return the defaults. -/
def visualRequired : ShapeKey → List PName
  | .trigonometric => [.function]
  | .right_triangle => []
  | .equilateral_triangle => [.side]
  | .similar_triangles => [.ratio, .corresponding_side1, .corresponding_side2]
  | .general_triangle => [.side_a, .side_b, .side_c]
  | .isosceles_triangle => [.base, .equal_sides]
  | .circle => []
  | .circle_angle => [.arc1, .arc2]
  | .rectangle => []

/-- The derivation tables of SHAPE_NORMALIZATION_RULES in visual.py. -/
def visualDerived : ShapeKey → PName → List Rule
  | .trigonometric, _ => []
  | .circle, _ => []
  | .rectangle, _ => []
  | .circle_angle, .angle =>
    [⟨[.arc1, .arc2], fun vs =>
      match vs with | [a1, a2] => some ((a1 + a2) / 2) | _ => none⟩]
  | .circle_angle, _ => []
  | s, p => triDerived s p

/-- `isinstance(normalized[p], (int, float))` for a present key. -/
def numericOk (m : ParamMap) (p : PName) : Bool := (pNum m p).isSome

/-- The tail of `normalize_parameters`: the None-dropping comprehension
(the identity here), the 3-pass derivation loop over
SHAPE_NORMALIZATION_RULES, and the final required-parameter check. -/
def visualFinish (shape : ShapeKey) (pre : ParamMap) :
    Except NormErr ParamMap :=
  let normalized :=
    derivationPasses (visualRequired shape) (visualDerived shape) 3 pre
  match (visualRequired shape).find?
      (fun p => !(pmem normalized p && numericOk normalized p)) with
  | some p => .error (.missingOrInvalid p)
  | none => .ok normalized

/-- `normalize_parameters` from visual.py: shape-specific
pre-processing, then the generic engine and required check. -/
def normalize_parameters (shape : ShapeKey) (params : ParamMap) :
    Except NormErr ParamMap :=
  (if isTriangleShape shape then normalize_triangle_parameters shape params
   else if shape = .rectangle then normalize_square_parameters params
   else if shape = .circle then .ok (normalize_circle_parameters params)
   else .ok params).bind (visualFinish shape)

/-- Python expressions reachable inside the eval call of
`safe_eval_parameter` (visual.py), after lowercasing and the pi / caret
substitutions: numeric literals, the arithmetic operators, unary minus,
names, attribute access, and one-argument calls (every math-module
function modeled here takes one argument). -/
inductive PyExpr where
  | lit (x : ℝ)
  | add (e1 e2 : PyExpr)
  | sub (e1 e2 : PyExpr)
  | mul (e1 e2 : PyExpr)
  | div (e1 e2 : PyExpr)
  | pow (e1 e2 : PyExpr)
  | neg (e : PyExpr)
  | name (s : String)
  | attr (e : PyExpr) (fld : String)
  | call (f : PyExpr) (arg : PyExpr)

/-- Functions of the math module in the modeled fragment. -/
inductive MathFn where
  | sin | cos | tan | sqrt
deriving DecidableEq

/-- Values eval can return: numbers, the math module object itself
(eval("math", ...) returns it), and math functions. -/
inductive PyVal where
  | num (x : ℝ)
  | mathModule
  | mathFn (f : MathFn)

/-- Apply a math function (math.sqrt raises on negative input). -/
def applyMathFn : MathFn → ℝ → Option ℝ
  | .sin, x => some (Real.sin x)
  | .cos, x => some (Real.cos x)
  | .tan, x => some (Real.tan x)
  | .sqrt, x => pysqrt x

/-- Python float power on the modeled fragment: nonnegative bases only
(0 ** 0 = 1 in Python; a negative base with a non-integer exponent
raises and integer exponents of negative bases are outside the modeled
fragment). -/
def pypow (x y : ℝ) : Option ℝ :=
  if 0 < x then some (x ^ y)
  else if x = 0 then
    (if y = 0 then some 1 else if 0 < y then some 0 else none)
  else none

/-- The evaluation performed by the string branch of
`safe_eval_parameter`: `eval(expr, {"__builtins__": None}, {"math": math})`.
Only the name math resolves, but attribute access on the module and
calls of its functions succeed: the environment is the full expression
language with math in scope, not a grammar restricted to literal
arithmetic.  `none` models any raised exception (caught by the caller). -/
def pyEval : PyExpr → Option PyVal
  | .lit x => some (.num x)
  | .add e1 e2 =>
    match pyEval e1, pyEval e2 with
    | some (.num x), some (.num y) => some (.num (x + y))
    | _, _ => none
  | .sub e1 e2 =>
    match pyEval e1, pyEval e2 with
    | some (.num x), some (.num y) => some (.num (x - y))
    | _, _ => none
  | .mul e1 e2 =>
    match pyEval e1, pyEval e2 with
    | some (.num x), some (.num y) => some (.num (x * y))
    | _, _ => none
  | .div e1 e2 =>
    match pyEval e1, pyEval e2 with
    | some (.num x), some (.num y) => (pydiv x y).map .num
    | _, _ => none
  | .pow e1 e2 =>
    match pyEval e1, pyEval e2 with
    | some (.num x), some (.num y) => (pypow x y).map .num
    | _, _ => none
  | .neg e =>
    match pyEval e with
    | some (.num x) => some (.num (-x))
    | _ => none
  | .name s => if s = "math" then some .mathModule else none
  | .attr e fld =>
    match pyEval e with
    | some .mathModule =>
      if fld = "pi" then some (.num Real.pi)
      else if fld = "sin" then some (.mathFn .sin)
      else if fld = "cos" then some (.mathFn .cos)
      else if fld = "tan" then some (.mathFn .tan)
      else if fld = "sqrt" then some (.mathFn .sqrt)
      else none
    | _ => none
  | .call f a =>
    match pyEval f, pyEval a with
    | some (.mathFn g), some (.num x) => (applyMathFn g x).map .num
    | _, _ => none

/-- Inputs of `safe_eval_parameter`: a list (the angles case, reusing
the AngVal encoding), a number, a nonempty string carried together with
the parse of its lowercased and substituted text (`none` when Python
fails to parse it, as for "DROP TABLE"), or anything else (None, blank
strings, unsupported types). -/
inductive SEInput where
  | list (l : AngVal)
  | num (x : ℝ)
  | str (parsed : Option PyExpr)
  | other

/-- Possible return values of `safe_eval_parameter`: a float list, a
float, or a non-numeric Python value (the eval result is returned
as-is, so the math module itself can come back). -/
inductive SEOut where
  | num (x : ℝ)
  | lst (l : List ℝ)
  | val (v : PyVal)

/-- `safe_eval_parameter` from visual.py.  Every failure path returns
None (the except handlers swallow the exception); nothing propagates. -/
def safe_eval_parameter : SEInput → Option SEOut
  | .list (.nums l) => some (.lst l)
  | .list .malformed => none
  | .num x => some (.num x)
  | .str none => none
  | .str (some e) =>
    match pyEval e with
    | some (.num x) => some (.num x)
    | some v => some (.val v)
    | none => none
  | .other => none

/-- Modelled from the spec: the evaluator described in section 4.1 of
the specification — literals, the operators + - * / ** ( ), unary minus
and the pi substitution (which surfaces as math.pi after textual
substitution); names, function calls and attribute access are not
available and fail the evaluation. -/
def specEval : PyExpr → Option ℝ
  | .lit x => some x
  | .add e1 e2 => (specEval e1).bind fun x => (specEval e2).map fun y => x + y
  | .sub e1 e2 => (specEval e1).bind fun x => (specEval e2).map fun y => x - y
  | .mul e1 e2 => (specEval e1).bind fun x => (specEval e2).map fun y => x * y
  | .div e1 e2 => (specEval e1).bind fun x => (specEval e2).bind fun y => pydiv x y
  | .pow e1 e2 => (specEval e1).bind fun x => (specEval e2).bind fun y => pypow x y
  | .neg e => (specEval e).map fun x => -x
  | .attr (.name "math") "pi" => some Real.pi
  | _ => none

/-- The spec's restricted grammar: literals, arithmetic, unary minus and
the substituted pi constant. -/
inductive ArithOnly : PyExpr → Prop where
  | lit (x : ℝ) : ArithOnly (.lit x)
  | add {e1 e2 : PyExpr} : ArithOnly e1 → ArithOnly e2 → ArithOnly (.add e1 e2)
  | sub {e1 e2 : PyExpr} : ArithOnly e1 → ArithOnly e2 → ArithOnly (.sub e1 e2)
  | mul {e1 e2 : PyExpr} : ArithOnly e1 → ArithOnly e2 → ArithOnly (.mul e1 e2)
  | div {e1 e2 : PyExpr} : ArithOnly e1 → ArithOnly e2 → ArithOnly (.div e1 e2)
  | pow {e1 e2 : PyExpr} : ArithOnly e1 → ArithOnly e2 → ArithOnly (.pow e1 e2)
  | neg {e : PyExpr} : ArithOnly e → ArithOnly (.neg e)
  | pi : ArithOnly (.attr (.name "math") "pi")

/-- An angles entry that the angles pre-step leaves unchanged: absent,
or a numeric list summing to 180 within rel_tol 0.01. -/
def anglesOK (q : ParamMap) : Prop :=
  q.angles = none ∨
    ∃ l, q.angles = some (.nums l) ∧ isclose l.sum 180 0.01

/-- A function entry that the conversion loop leaves unchanged: absent
or numeric. -/
def funcOK (q : ParamMap) : Prop :=
  q.function = none ∨ ∃ x, q.function = some (.num x)

/-- A heap of Python dictionaries: an address is an index into the list.
All maps a normalization call can reach live here, so in-place updates
are explicit writes. -/
structure PyState where
  dicts : List ParamMap

/-- Read the dictionary at an address (a dangling address reads as the
empty mapping; the functions below are only run on live addresses). -/
def dread (s : PyState) (a : Nat) : ParamMap := s.dicts.getD a emptyMap

/-- In-place update of the dictionary at an address. -/
def dwrite (s : PyState) (a : Nat) (d : ParamMap) : PyState :=
  ⟨s.dicts.set a d⟩

/-- Allocate a fresh dictionary (`.copy()` or a dict comprehension) and
return its address. -/
def dalloc (s : PyState) (d : ParamMap) : PyState × Nat :=
  (⟨s.dicts ++ [d]⟩, s.dicts.length)

/-- `normalize_triangle_parameters` as it acts on the dictionary heap:
the only allocation is `normalized = params.copy()`; every subsequent
statement mutates that copy in place (tracked here one block at a time),
and the consistency checks of the second 30-60-90 block go back to the
caller's dictionary, reading it without writing.  On a raise the heap as
of the failing block is returned alongside the error. -/
def normalize_triangle_parameters_state (shape_type : ShapeKey)
    (s : PyState) (pa : Nat) : PyState × Except NormErr Nat :=
  let ab := dalloc s (dread s pa)
  let s1 := ab.1
  let b := ab.2
  let s2 := dwrite s1 b (anglesStep (dread s1 b))
  let s3 := dwrite s2 b (convStep (dread s2 b))
  let s4 := dwrite s3 b (triPre shape_type (dread s3 b))
  match triMid shape_type (dread s4 pa) (dread s4 b) with
  | .error e => (s4, .error e)
  | .ok n => (dwrite s4 b n, .ok b)

/-- `normalize_square_parameters` on the heap: the comprehension
allocates the new dictionary; a negative-area `math.sqrt` raises while
filling it. -/
def normalize_square_parameters_state (s : PyState) (a : Nat) :
    PyState × Except NormErr Nat :=
  let cb := dalloc s (dread s a)
  match normalize_square_parameters (dread s a) with
  | .error e => (cb.1, .error e)
  | .ok d => (dwrite cb.1 cb.2 d, .ok cb.2)

/-- `normalize_circle_parameters` on the heap: the comprehension
allocates the new dictionary and the branch fills it; nothing can
raise. -/
def normalize_circle_parameters_state (s : PyState) (a : Nat) :
    PyState × Except NormErr Nat :=
  let cb := dalloc s (dread s a)
  (dwrite cb.1 cb.2 (normalize_circle_parameters (dread s a)), .ok cb.2)

/-- `normalize_parameters` (visual.py) on the heap.  The local name
`params` is rebound to the sub-normalizer result (never written
through); the `normalized` comprehension allocates a fresh dictionary,
which the bounded derivation loop then mutates in place; the final
required check raises without further writes. -/
def normalize_parameters_state (shape : ShapeKey) (s : PyState)
    (a : Nat) : PyState × Except NormErr Nat :=
  let st1 :=
    if isTriangleShape shape then
      normalize_triangle_parameters_state shape s a
    else if shape = .rectangle then normalize_square_parameters_state s a
    else if shape = .circle then normalize_circle_parameters_state s a
    else (s, .ok a)
  match st1 with
  | (s1, .error e) => (s1, .error e)
  | (s1, .ok pa2) =>
    let cb := dalloc s1 (dread s1 pa2)
    let s2 := cb.1
    let c := cb.2
    let s3 := dwrite s2 c (derivationPasses (visualRequired shape)
      (visualDerived shape) 3 (dread s2 c))
    match (visualRequired shape).find?
        (fun r => !(pmem (dread s3 c) r && numericOk (dread s3 c) r)) with
    | some r => (s3, .error (.missingOrInvalid r))
    | none => (s3, .ok c)

/-- Claim C1 (counterexample).  `normalize("right_triangle", {})` does
not raise: it returns successfully (with the empty mapping), because the
registry's required list for right_triangle is empty, so the final
missing-parameter check has nothing to complain about. -/
theorem C1_empty_right_triangle_returns_successfully :
    normalize_parameters .right_triangle emptyMap = .ok emptyMap := by
  simp [normalize_parameters, normalize_triangle_parameters, triTail, triPre, triMid,
    visualFinish, anglesStep, convStep, block3060A, generalAlias, legAlias,
    block3060B, checkRatio, isoBlock, equiBlock, pythBlock, pythElif, pythProvided, truthy, osetD,
    derivationPasses, passOnce, missingList, firstRule, applyRule,
    getSources, pmem, pNum, pset, numericOk, triRequired, triDerived,
    visualRequired, visualDerived, isTriangleShape,
    normalize_circle_parameters, normalize_square_parameters,
    pysqrt, pydiv, isclose, emptyMap, bind, Except.bind, pure, Except.pure,
    List.filter_cons, List.filter_nil, List.findSome?_cons,
    List.findSome?_nil, Option.bind]

/-- Claim C1 (amended).  For the shape right_triangle with an empty raw
mapping, `normalize_parameters` returns the empty mapping successfully:
both the triangle registry and the merged visual registry hold an empty
required list for right_triangle, so no MissingParameterError-style
failure can be produced for this shape. -/
theorem C1_right_triangle_required_empty :
    triRequired .right_triangle = [] ∧ visualRequired .right_triangle = [] ∧
    normalize_parameters .right_triangle emptyMap = .ok emptyMap := by
  refine ⟨rfl, rfl, ?_⟩
  simp [normalize_parameters, normalize_triangle_parameters, triTail, triPre, triMid,
    visualFinish, anglesStep, convStep, block3060A, generalAlias, legAlias,
    block3060B, checkRatio, isoBlock, equiBlock, pythBlock, pythElif, pythProvided, truthy, osetD,
    derivationPasses, passOnce, missingList, firstRule, applyRule,
    getSources, pmem, pNum, pset, numericOk, triRequired, triDerived,
    visualRequired, visualDerived, isTriangleShape,
    normalize_circle_parameters, normalize_square_parameters,
    pysqrt, pydiv, isclose, emptyMap, bind, Except.bind, pure, Except.pure,
    List.filter_cons, List.filter_nil, List.findSome?_cons,
    List.findSome?_nil, Option.bind]

/-- Claim C7.  For the shape trigonometric, whenever the `function` key
holds a string value (in particular its valid values sin/cos/tan), the
final required-parameter check of `normalize_parameters` rejects it
(isinstance int/float fails) and the call raises
ValueError("Missing or invalid parameter: function"). -/
theorem C7_trigonometric_string_function_always_fails (p : ParamMap)
    (s : String) (h : p.function = some (.str s)) :
    normalize_parameters .trigonometric p =
      .error (.missingOrInvalid .function) := by
  simp [normalize_parameters, visualFinish, derivationPasses, missingList,
    pmem, pNum, numericOk, visualRequired, isTriangleShape, h,
    bind, Except.bind, pure, Except.pure, List.filter_cons, List.filter_nil]

/-- Witness for C7 at the concrete mapping function = "sin". -/
theorem C7_witness :
    ({ function := some (.str "sin") } : ParamMap).function =
        some (.str "sin") ∧
    normalize_parameters .trigonometric { function := some (.str "sin") } =
      .error (.missingOrInvalid .function) :=
  ⟨rfl, C7_trigonometric_string_function_always_fails _ "sin" rfl⟩

/-- Claim C8 (counterexample).  Neither circle call of the claim returns
a radius-only mapping: normalize_circle_parameters adds radius next to
the source key and never deletes it, and the engine afterwards keeps
every key (the registry entry for circle stores the whole two-entry dict
from circle.py, so its top-level required list is empty).  So
`normalize("circle", {"diameter": 10})` is not equal to {"radius": 5.0}
and `normalize("circle", {"circumference": 2*pi})` is not equal to
{"radius": 1.0}. -/
theorem C8_circle_result_not_radius_only :
    normalize_parameters .circle { diameter := some 10 } ≠
      .ok { radius := some 5 } ∧
    normalize_parameters .circle { circumference := some (2 * Real.pi) } ≠
      .ok { radius := some 1 } := by
  constructor <;>
    simp [normalize_parameters, normalize_circle_parameters, visualFinish,
      derivationPasses, missingList, visualRequired, isTriangleShape,
      bind, Except.bind, pure, Except.pure, ParamMap.mk.injEq]

/-- Claim C8 (amended).  For every diameter d,
`normalize("circle", {"diameter": d})` returns {"diameter": d,
"radius": d/2}, and for every circumference c the call returns
{"circumference": c, "radius": c/(2*pi)}: the conversions of
normalize_circle_parameters are exactly the claimed ones, but the source
key is retained alongside the derived radius.  At the claim's inputs:
diameter 10 gives radius 5.0 (diameter kept) and circumference 2*pi
gives radius exactly 1.0 (circumference kept). -/
theorem C8_circle_derivations :
    (∀ d : ℝ, normalize_parameters .circle { diameter := some d } =
      .ok { diameter := some d, radius := some (d / 2) }) ∧
    (∀ c : ℝ, normalize_parameters .circle { circumference := some c } =
      .ok { circumference := some c,
            radius := some (c / (2 * Real.pi)) }) ∧
    normalize_parameters .circle { diameter := some 10 } =
      .ok { diameter := some 10, radius := some 5 } ∧
    normalize_parameters .circle { circumference := some (2 * Real.pi) } =
      .ok { circumference := some (2 * Real.pi), radius := some 1 } := by
  refine ⟨?_, ?_, ?_, ?_⟩ <;>
    first
    | (intro x
       simp [normalize_parameters, normalize_circle_parameters,
         visualFinish, derivationPasses, missingList, visualRequired,
         isTriangleShape, bind, Except.bind, pure, Except.pure])
    | (simp [normalize_parameters, normalize_circle_parameters,
         visualFinish, derivationPasses, missingList, visualRequired,
         isTriangleShape, bind, Except.bind, pure, Except.pure] <;>
       norm_num [Real.pi_ne_zero])

/-- Claim C2 (code bug).  For the shape rectangle with raw parameters
{"area": 20, "height": 4}, the pipeline runs normalize_square_parameters,
whose area branch only checks that `width` is absent and therefore
overwrites the supplied height: the result maps width and height both to
sqrt(20) (about 4.472), not to 5.0 and 4.0.  The intended first rule of
RECTANGLE_NORMALIZATION_RULES (width from area/height) would give 5.0,
but visual.py never installs that table into SHAPE_NORMALIZATION_RULES.
The side = 4 case behaves as the claim states. -/
theorem C2_rectangle_area_height_overwritten :
    normalize_parameters .rectangle { area := some 20, height := some 4 } =
      .ok { width := some (Real.sqrt 20), height := some (Real.sqrt 20),
            area := some 20 } ∧
    Real.sqrt 20 ≠ 4 ∧
    firstRule { area := some 20, height := some 4 } rectangleWidthRules =
      some 5 ∧
    normalize_parameters .rectangle { side := some 4 } =
      .ok { width := some 4, height := some 4, side := some 4 } := by
  refine ⟨?_, ?_, ?_, ?_⟩
  · have h1 : normalize_square_parameters
        { area := some 20, height := some 4 } =
        .ok { width := some (Real.sqrt 20), height := some (Real.sqrt 20),
              area := some 20 } := by
      norm_num [normalize_square_parameters, pysqrt]
    simp only [normalize_parameters, isTriangleShape, bind, Except.bind]
    norm_num [h1, visualFinish, derivationPasses, missingList,
      visualRequired]
  · intro h
    have h20 : Real.sqrt 20 ^ 2 = 20 :=
      Real.sq_sqrt (by norm_num : (0:ℝ) ≤ 20)
    rw [h] at h20
    norm_num at h20
  · norm_num [firstRule, applyRule, rectangleWidthRules, pNum, pydiv,
      getSources, List.findSome?_cons, List.findSome?_nil, Option.bind]
  · have h1 : normalize_square_parameters { side := some 4 } =
        .ok { width := some 4, height := some 4, side := some 4 } := by
      norm_num [normalize_square_parameters]
    simp only [normalize_parameters, isTriangleShape, bind, Except.bind]
    norm_num [h1, visualFinish, derivationPasses, missingList,
      visualRequired]

/-- Claim C4 (counterexample).  `normalize("general_triangle",
{"side_a": 1, "side_b": 1, "side_c": 10})` does not raise: the
derivation loop only fills missing required parameters and no code in
normalize_parameters checks the triangle inequality, so the call returns
the sides unchanged. -/
theorem C4_invalid_sides_do_not_raise :
    normalize_parameters .general_triangle
        { side_a := some 1, side_b := some 1, side_c := some 10 } =
      .ok { side_a := some 1, side_b := some 1, side_c := some 10 } := by
  have h1 : normalize_triangle_parameters .general_triangle
      { side_a := some 1, side_b := some 1, side_c := some 10 } =
      .ok { side_a := some 1, side_b := some 1, side_c := some 10 } := by
    simp [normalize_triangle_parameters, triTail, triPre, triMid, anglesStep, convStep,
        generalAlias, legAlias, derivationPasses, missingList, pmem,
        triRequired, bind, Except.bind, pure, Except.pure,
        List.filter_cons, List.filter_nil]
  simp only [normalize_parameters, isTriangleShape, bind, Except.bind]
  norm_num [h1, visualFinish, derivationPasses, missingList, pmem, pNum,
    numericOk, visualRequired, List.filter_cons, List.filter_nil]

/-- Claim C4 (amended).  Normalization does not validate the triangle
inequality and does not add derived values: {1, 1, 10} is returned
unchanged even though is_valid_triangle rejects it (the rendering stage,
not normalize, refuses to draw it), and {3, 4, 5} is returned unchanged
with no derived area or angle_a key (the registry formulas, including
Heron's formula which would give exactly 6, fill only missing required
parameters, and area/angle_a are not required). -/
theorem C4_general_triangle_no_validation_no_derived :
    normalize_parameters .general_triangle
        { side_a := some 1, side_b := some 1, side_c := some 10 } =
      .ok { side_a := some 1, side_b := some 1, side_c := some 10 } ∧
    ¬ is_valid_triangle [1, 1, 10] ∧
    normalize_parameters .general_triangle
        { side_a := some 3, side_b := some 4, side_c := some 5 } =
      .ok { side_a := some 3, side_b := some 4, side_c := some 5 } ∧
    is_valid_triangle [3, 4, 5] ∧
    herons_formula 3 4 5 = some 6 := by
  refine ⟨C4_invalid_sides_do_not_raise, ?_, ?_, ?_, ?_⟩
  · norm_num [is_valid_triangle]
  · have h1 : normalize_triangle_parameters .general_triangle
        { side_a := some 3, side_b := some 4, side_c := some 5 } =
        .ok { side_a := some 3, side_b := some 4, side_c := some 5 } := by
      simp [normalize_triangle_parameters, triTail, triPre, triMid, anglesStep, convStep,
        generalAlias, legAlias, derivationPasses, missingList, pmem,
        triRequired, bind, Except.bind, pure, Except.pure,
        List.filter_cons, List.filter_nil]
    simp only [normalize_parameters, isTriangleShape, bind, Except.bind]
    norm_num [h1, visualFinish, derivationPasses, missingList, pmem, pNum,
      numericOk, visualRequired, List.filter_cons, List.filter_nil]
  · norm_num [is_valid_triangle]
  · have h36 : ((3:ℝ) + 4 + 5) / 2 * (((3:ℝ) + 4 + 5) / 2 - 3) *
        (((3:ℝ) + 4 + 5) / 2 - 4) * (((3:ℝ) + 4 + 5) / 2 - 5) = 6 ^ 2 := by
      norm_num
    rw [herons_formula]
    simp only [h36, pysqrt]
    rw [if_neg (by norm_num : ¬((6:ℝ) ^ 2 < 0))]
    rw [Real.sqrt_sq (by norm_num : (0:ℝ) ≤ 6)]

/-- Helper: math.isclose at rel_tol 0.01 is reflexive. -/
theorem isclose_point01_refl (x : ℝ) : isclose x x 0.01 := by
  simp [isclose]
  positivity

/-- Helper: for right_triangle the visual registry has an empty required
list, so normalize_parameters reduces to the triangle normalizer. -/
theorem normalize_parameters_right_triangle (p : ParamMap) :
    normalize_parameters .right_triangle p =
      normalize_triangle_parameters .right_triangle p := by
  rw [normalize_parameters]
  simp only [isTriangleShape, if_pos, bind, Except.bind]
  cases htri : normalize_triangle_parameters .right_triangle p with
  | error e => rfl
  | ok v =>
    simp [visualFinish, derivationPasses, missingList, visualRequired]

/-- Claim C3 (counterexample).  The 30-60-90 shortcut compares the
angles list against exactly [30.0, 60.0, 90.0]: for the permutation
[60, 30, 90] with hypotenuse 10 the call succeeds without deriving any
side (side1 stays absent instead of becoming 5.0). -/
theorem C3_permutation_not_recognized :
    normalize_parameters .right_triangle
      { hypotenuse := some 10, angles := some (.nums [60, 30, 90]) } =
    .ok { hypotenuse := some 10, angles := some (.nums [60, 30, 90]) } ∧
    ({ hypotenuse := some 10, angles := some (.nums [60, 30, 90]) } :
      ParamMap).side1 = none := by
  refine ⟨?_, rfl⟩
  rw [normalize_parameters_right_triangle]
  have ha : anglesStep
      { hypotenuse := some 10, angles := some (.nums [60, 30, 90]) } =
      { hypotenuse := some 10, angles := some (.nums [60, 30, 90]) } := by
    rw [anglesStep]
    norm_num [isclose]
  simp [normalize_triangle_parameters, triTail, triPre, triMid, ha, convStep,
    block3060A, legAlias, block3060B, pythBlock, pythElif, pythProvided, truthy, osetD,
    derivationPasses, missingList, pmem, triRequired,
    bind, Except.bind, pure, Except.pure,
    List.filter_cons, List.filter_nil]

/-- Claim C3 (amended).  The ratio shortcut fires only when the angles
list is exactly [30, 60, 90] in that order.  Then, when exactly one of
hypotenuse / side1 (30-degree leg) / side2 (60-degree leg) is supplied
and nonzero, the other two are derived by the 1 : sqrt 3 : 2 ratios
(hypotenuse h gives side1 = h/2 and side2 = h*sqrt3/2, so hypotenuse 10
gives side1 = 5 and side2 about 8.66), and a supplied member of the
triple that disagrees with the recomputed value by more than 1 percent
relative tolerance raises a descriptive ValueError (for example side1=3
with hypotenuse=10). -/
theorem C3_30_60_90_exact_order (h : ℝ) (hh : h ≠ 0) :
    (normalize_parameters .right_triangle
        { hypotenuse := some h, angles := some (.nums [30, 60, 90]) } =
      .ok { side1 := some (h / 2), side2 := some (h * Real.sqrt 3 / 2),
            hypotenuse := some h, angles := some (.nums [30, 60, 90]) }) ∧
    (normalize_parameters .right_triangle
        { side1 := some h, angles := some (.nums [30, 60, 90]) } =
      .ok { side1 := some h, side2 := some (h * Real.sqrt 3),
            hypotenuse := some (h * 2),
            angles := some (.nums [30, 60, 90]) }) ∧
    (normalize_parameters .right_triangle
        { side2 := some h, angles := some (.nums [30, 60, 90]) } =
      .ok { side1 := some (h / Real.sqrt 3), side2 := some h,
            hypotenuse := some (h * 2 / Real.sqrt 3),
            angles := some (.nums [30, 60, 90]) }) ∧
    normalize_parameters .right_triangle
        { hypotenuse := some 10, side1 := some 3,
          angles := some (.nums [30, 60, 90]) } =
      .error (.ratioMismatch .side1) := by
  have hs3 : Real.sqrt 3 ≠ 0 := by positivity
  refine ⟨?_, ?_, ?_, ?_⟩
  · rw [normalize_parameters_right_triangle]
    have ha : anglesStep
        { hypotenuse := some h, angles := some (.nums [30, 60, 90]) } =
        { hypotenuse := some h, angles := some (.nums [30, 60, 90]) } := by
      rw [anglesStep]
      norm_num [isclose]
    have f1 : h / 2 ≠ 0 := by
      intro hz
      exact hh (by linarith [hz])
    have f2 : h * Real.sqrt 3 / 2 ≠ 0 := by
      intro hz
      rcases mul_eq_zero.mp
          ((div_eq_zero_iff.mp hz).resolve_right (by norm_num)) with h1 | h1
      exacts [hh h1, hs3 h1]
    simp [normalize_triangle_parameters, triTail, triPre, triMid, ha, convStep,
      block3060A, legAlias, block3060B, checkRatio, pythBlock, pythElif, pythProvided, truthy,
      osetD, derivationPasses, missingList, pmem, triRequired, hh, f1, f2,
      isclose_point01_refl, bind, Except.bind, pure, Except.pure,
      List.filter_cons, List.filter_nil]
  · rw [normalize_parameters_right_triangle]
    have ha : anglesStep
        { side1 := some h, angles := some (.nums [30, 60, 90]) } =
        { side1 := some h, angles := some (.nums [30, 60, 90]) } := by
      rw [anglesStep]
      norm_num [isclose]
    have f0 : h * 2 ≠ 0 := by
      intro hz
      exact hh ((mul_eq_zero.mp hz).resolve_right (by norm_num))
    have e1 : h * 2 / 2 = h := by ring
    have e2 : h * 2 * Real.sqrt 3 / 2 = h * Real.sqrt 3 := by ring
    have f2 : h * Real.sqrt 3 ≠ 0 := fun hz =>
      (mul_eq_zero.mp hz).elim hh hs3
    simp [normalize_triangle_parameters, triTail, triPre, triMid, ha, convStep,
      block3060A, legAlias, block3060B, checkRatio, pythBlock, pythElif, pythProvided, truthy,
      osetD, derivationPasses, missingList, pmem, triRequired, hh, f0, e1,
      e2, f2, isclose_point01_refl, bind, Except.bind, pure, Except.pure,
      List.filter_cons, List.filter_nil]
  · rw [normalize_parameters_right_triangle]
    have ha : anglesStep
        { side2 := some h, angles := some (.nums [30, 60, 90]) } =
        { side2 := some h, angles := some (.nums [30, 60, 90]) } := by
      rw [anglesStep]
      norm_num [isclose]
    have f0 : h * 2 / Real.sqrt 3 ≠ 0 := by
      intro hz
      rcases mul_eq_zero.mp
          ((div_eq_zero_iff.mp hz).resolve_right hs3) with h1 | h1
      exacts [hh h1, absurd h1 (by norm_num)]
    have e1 : h * 2 / Real.sqrt 3 / 2 = h / Real.sqrt 3 := by ring
    have e2 : h * 2 / Real.sqrt 3 * Real.sqrt 3 / 2 = h := by field_simp
    have f1 : h / Real.sqrt 3 ≠ 0 := fun hz =>
      hh ((div_eq_zero_iff.mp hz).resolve_right hs3)
    simp [normalize_triangle_parameters, triTail, triPre, triMid, ha, convStep,
      block3060A, legAlias, block3060B, checkRatio, pythBlock, pythElif, pythProvided, truthy,
      osetD, derivationPasses, missingList, pmem, triRequired, hh, f0, e1,
      e2, f1, isclose_point01_refl, bind, Except.bind, pure, Except.pure,
      List.filter_cons, List.filter_nil]
  · rw [normalize_parameters_right_triangle]
    have ha : anglesStep
        { hypotenuse := some 10, side1 := some 3,
          angles := some (.nums [30, 60, 90]) } =
        { hypotenuse := some 10, side1 := some 3,
          angles := some (.nums [30, 60, 90]) } := by
      rw [anglesStep]
      norm_num [isclose]
    have f10 : (10:ℝ) ≠ 0 := by norm_num
    have fno : ¬ isclose 3 (10 / 2) 0.01 := by norm_num [isclose]
    simp [normalize_triangle_parameters, triTail, triPre, triMid, ha, convStep,
      block3060A, legAlias, block3060B, checkRatio, pythBlock, pythElif, pythProvided, truthy,
      osetD, derivationPasses, missingList, pmem, triRequired, f10, fno,
      isclose_point01_refl, bind, Except.bind, pure, Except.pure,
      List.filter_cons, List.filter_nil]

/-- Witness for C3 at hypotenuse = 10 (side1 = 5, side2 = 5*sqrt 3). -/
theorem C3_witness :
    (10:ℝ) ≠ 0 ∧
    ((normalize_parameters .right_triangle
        { hypotenuse := some (10:ℝ), angles := some (.nums [30, 60, 90]) } =
      .ok { side1 := some ((10:ℝ) / 2),
            side2 := some ((10:ℝ) * Real.sqrt 3 / 2),
            hypotenuse := some (10:ℝ),
            angles := some (.nums [30, 60, 90]) }) ∧
    (normalize_parameters .right_triangle
        { side1 := some (10:ℝ), angles := some (.nums [30, 60, 90]) } =
      .ok { side1 := some (10:ℝ), side2 := some ((10:ℝ) * Real.sqrt 3),
            hypotenuse := some ((10:ℝ) * 2),
            angles := some (.nums [30, 60, 90]) }) ∧
    (normalize_parameters .right_triangle
        { side2 := some (10:ℝ), angles := some (.nums [30, 60, 90]) } =
      .ok { side1 := some ((10:ℝ) / Real.sqrt 3), side2 := some (10:ℝ),
            hypotenuse := some ((10:ℝ) * 2 / Real.sqrt 3),
            angles := some (.nums [30, 60, 90]) }) ∧
    normalize_parameters .right_triangle
        { hypotenuse := some 10, side1 := some 3,
          angles := some (.nums [30, 60, 90]) } =
      .error (.ratioMismatch .side1)) :=
  ⟨by norm_num, C3_30_60_90_exact_order 10 (by norm_num)⟩

theorem except_bind_ok {E A B : Type} (a : Except E A) (f : A → Except E B)
    (b : B) (h : a.bind f = .ok b) : ∃ x, a = .ok x ∧ f x = .ok b := by
  cases a with
  | error e => simp [Except.bind] at h
  | ok x => exact ⟨x, rfl, h⟩

theorem pset_angles (m : ParamMap) (k : PName) (v : ℝ) :
    (pset m k v).angles = m.angles := by
  cases k <;> rfl

theorem passOnce_angles (req : List PName) (der : PName → List Rule)
    (m : ParamMap) : (passOnce req der m).angles = m.angles := by
  rw [passOnce]
  generalize missingList req m = L
  induction L generalizing m with
  | nil => rfl
  | cons k ks ih =>
    rw [List.foldl_cons]
    cases firstRule m (der k) with
    | none => exact ih m
    | some v => rw [ih (pset m k v)] ; exact pset_angles m k v

theorem derivationPasses_angles (req : List PName) (der : PName → List Rule)
    (fuel : Nat) (m : ParamMap) :
    (derivationPasses req der fuel m).angles = m.angles := by
  induction fuel generalizing m with
  | zero => rfl
  | succ k ih =>
    rw [derivationPasses]
    split
    · rfl
    · rw [ih (passOnce req der m), passOnce_angles]

theorem block3060A_angles (m : ParamMap) :
    (block3060A m).angles = m.angles := by
  unfold block3060A
  dsimp only
  repeat' split
  all_goals rfl

theorem generalAlias_angles (m : ParamMap) :
    (generalAlias m).angles = m.angles := by
  unfold generalAlias
  repeat' (first | split | (dsimp only; split))
  all_goals rfl

theorem legAlias_angles (m : ParamMap) :
    (legAlias m).angles = m.angles := by
  unfold legAlias
  repeat' (first | split | (dsimp only; split))
  all_goals rfl

theorem block3060B_angles (params m n : ParamMap)
    (h : block3060B params m = .ok n) : n.angles = m.angles := by
  unfold block3060B checkRatio at h
  repeat' (first | (split at h) | (dsimp only at h; split at h))
  all_goals (try cases h)
  all_goals rfl

theorem isoBlock_angles (m n : ParamMap) (h : isoBlock m = .ok n) :
    n.angles = m.angles := by
  unfold isoBlock at h
  repeat' (first | (split at h) | (dsimp only at h; split at h))
  all_goals (try cases h)
  all_goals rfl

theorem equiBlock_angles (m n : ParamMap) (h : equiBlock m = .ok n) :
    n.angles = m.angles := by
  unfold equiBlock at h
  repeat' (first | (split at h) | (dsimp only at h; split at h))
  all_goals (try cases h)
  all_goals rfl

theorem pythElif_angles (m n : ParamMap) (h : pythElif m = .ok n) :
    n.angles = m.angles := by
  unfold pythElif at h
  repeat' (first | (split at h) | (dsimp only at h; split at h))
  all_goals (try cases h)
  all_goals rfl

theorem pythProvided_angles (m n : ParamMap) (h : pythProvided m = .ok n) :
    n.angles = m.angles := by
  unfold pythProvided at h
  repeat' (first | (split at h) | (dsimp only at h; split at h))
  all_goals (try cases h)
  all_goals rfl

theorem pythBlock_angles (m n : ParamMap) (h : pythBlock m = .ok n) :
    n.angles = m.angles := by
  obtain ⟨x, hx, hx2⟩ := except_bind_ok _ _ _ h
  rw [pythProvided_angles x n hx2, pythElif_angles m x hx]

theorem blockAIf_angles (c : Prop) [Decidable c] (m : ParamMap) :
    (if c then block3060A m else m).angles = m.angles := by
  split
  · exact block3060A_angles m
  · rfl


theorem triPre_angles (s : ShapeKey) (n0 : ParamMap) :
    (triPre s n0).angles = n0.angles := by
  unfold triPre
  dsimp only
  rw [legAlias_angles]
  split
  · rw [generalAlias_angles]
    exact blockAIf_angles _ n0
  · exact blockAIf_angles _ n0

theorem triMid_ok_angles (s : ShapeKey) (params n3 q : ParamMap)
    (h : triMid s params n3 = .ok q) : q.angles = n3.angles := by
  unfold triMid at h
  obtain ⟨n4, h4, h⟩ := except_bind_ok _ _ _ h
  obtain ⟨n5, h5, h⟩ := except_bind_ok _ _ _ h
  obtain ⟨n6, h6, h⟩ := except_bind_ok _ _ _ h
  obtain ⟨n7, h7, h⟩ := except_bind_ok _ _ _ h
  cases h
  have e4 : n4.angles = n3.angles := by
    split at h4
    · exact block3060B_angles _ _ _ h4
    · cases h4
      rfl
  have e5 : n5.angles = n4.angles := by
    split at h5
    · exact isoBlock_angles _ _ h5
    · cases h5
      rfl
  have e6 : n6.angles = n5.angles := by
    split at h6
    · exact equiBlock_angles _ _ h6
    · cases h6
      rfl
  have e7 : n7.angles = n6.angles := by
    split at h7
    · exact pythBlock_angles _ _ h7
    · cases h7
      rfl
  rw [derivationPasses_angles, e7, e6, e5, e4]

theorem triTail_ok_angles (s : ShapeKey) (params n0 q : ParamMap)
    (h : triTail s params n0 = .ok q) : q.angles = n0.angles := by
  rw [triTail] at h
  rw [triMid_ok_angles s params _ q h, triPre_angles]

theorem visualFinish_ok_angles (s : ShapeKey) (pre q : ParamMap)
    (h : visualFinish s pre = .ok q) : q.angles = pre.angles := by
  unfold visualFinish at h
  dsimp only at h
  split at h
  · exact Except.noConfusion h
  · cases h
    exact derivationPasses_angles _ _ _ _

theorem normalize_triangle_ok_angles (s : ShapeKey) (p q : ParamMap)
    (h : normalize_triangle_parameters s p = .ok q) :
    q.angles = (anglesStep p).angles := by
  rw [normalize_triangle_parameters] at h
  exact (triTail_ok_angles s p _ q h).trans rfl

/-- Helper: the consistency checks of the second 30-60-90 block read
only the hypotenuse/side1/side2 entries of the original params, so an
angles update of the original dictionary is invisible to triMid. -/
theorem triMid_params_angles (s : ShapeKey) (p n : ParamMap)
    (u : Option AngVal) :
    triMid s { p with angles := u } n = triMid s p n := rfl

/-- Helper: dropping a badly-summing angles list at the top of the
triangle normalizer. -/
theorem anglesStep_drop (p : ParamMap) (l : List ℝ)
    (hl : ¬ isclose l.sum 180 0.01) :
    anglesStep { p with angles := some (.nums l) } =
      { p with angles := none } := by
  simp only [anglesStep]
  rw [if_neg hl]

/-- Claim C9.  For every triangle shape, an angles list whose sum is not
within rel_tol 0.01 of 180 (or a list with non-numeric entries) is
discarded: normalization proceeds exactly as if no angles key had been
supplied, returning the same result rather than failing, and a
successful result carries no angles entry. -/
theorem C9_bad_angles_discarded (s : ShapeKey)
    (hs : isTriangleShape s = true) (p : ParamMap) (l : List ℝ)
    (hl : ¬ isclose l.sum 180 0.01) :
    normalize_parameters s { p with angles := some (.nums l) } =
      normalize_parameters s { p with angles := none } ∧
    normalize_parameters s { p with angles := some .malformed } =
      normalize_parameters s { p with angles := none } ∧
    (∀ q, normalize_parameters s { p with angles := some (.nums l) } =
        .ok q → q.angles = none) := by
  have htri : normalize_triangle_parameters s
      { p with angles := some (.nums l) } =
      normalize_triangle_parameters s { p with angles := none } := by
    rw [normalize_triangle_parameters, normalize_triangle_parameters,
      triTail, triTail, anglesStep_drop p l hl]
    exact (triMid_params_angles s p
        (triPre s (convStep { p with angles := none }))
        (some (.nums l))).trans
      (triMid_params_angles s p
        (triPre s (convStep { p with angles := none })) none).symm
  have hmal : normalize_triangle_parameters s
      { p with angles := some .malformed } =
      normalize_triangle_parameters s { p with angles := none } := by
    rw [normalize_triangle_parameters, normalize_triangle_parameters,
      triTail, triTail]
    exact (triMid_params_angles s p
        (triPre s (convStep { p with angles := none }))
        (some .malformed)).trans
      (triMid_params_angles s p
        (triPre s (convStep { p with angles := none })) none).symm
  refine ⟨?_, ?_, ?_⟩
  · simp only [normalize_parameters, hs, if_true, htri]
  · simp only [normalize_parameters, hs, if_true, hmal]
  · intro q hq
    simp only [normalize_parameters, hs, if_true] at hq
    obtain ⟨pre, hpre, hfin⟩ := except_bind_ok _ _ _ hq
    rw [visualFinish_ok_angles s pre q hfin,
      normalize_triangle_ok_angles s _ pre hpre,
      anglesStep_drop p l hl]

/-- Witness for C9: shape general_triangle, a 3-4-5 triangle with the
bad angle hint [10, 10, 10] (sums to 30, not 180). -/
theorem C9_witness :
    isTriangleShape .general_triangle = true ∧
    ¬ isclose (List.sum [(10:ℝ), 10, 10]) 180 0.01 ∧
    (normalize_parameters .general_triangle
        { side_a := some 3, side_b := some 4, side_c := some 5,
          angles := some (.nums [10, 10, 10]) } =
      normalize_parameters .general_triangle
        { side_a := some 3, side_b := some 4, side_c := some 5,
          angles := none } ∧
    normalize_parameters .general_triangle
        { side_a := some 3, side_b := some 4, side_c := some 5,
          angles := some .malformed } =
      normalize_parameters .general_triangle
        { side_a := some 3, side_b := some 4, side_c := some 5,
          angles := none } ∧
    (∀ q, normalize_parameters .general_triangle
        { side_a := some 3, side_b := some 4, side_c := some 5,
          angles := some (.nums [10, 10, 10]) } = .ok q →
      q.angles = none)) := by
  refine ⟨rfl, by norm_num [isclose], ?_⟩
  have h := C9_bad_angles_discarded .general_triangle rfl
    { side_a := some 3, side_b := some 4, side_c := some 5 }
    [10, 10, 10] (by norm_num [isclose])
  exact h

/-- Helper: on the spec's restricted grammar the unrestricted eval and
the restricted evaluator agree. -/
theorem pyEval_arithOnly (e : PyExpr) (h : ArithOnly e) :
    pyEval e = (specEval e).map PyVal.num := by
  induction h with
  | lit x => rfl
  | add h1 h2 ih1 ih2 =>
    rw [pyEval, specEval, ih1, ih2]
    cases specEval _ <;> cases specEval _ <;> rfl
  | sub h1 h2 ih1 ih2 =>
    rw [pyEval, specEval, ih1, ih2]
    cases specEval _ <;> cases specEval _ <;> rfl
  | mul h1 h2 ih1 ih2 =>
    rw [pyEval, specEval, ih1, ih2]
    cases specEval _ <;> cases specEval _ <;> rfl
  | div h1 h2 ih1 ih2 =>
    rw [pyEval, specEval, ih1, ih2]
    cases specEval _ <;> cases specEval _ <;>
      simp [Option.bind, pydiv] <;> split <;> rfl
  | pow h1 h2 ih1 ih2 =>
    rw [pyEval, specEval, ih1, ih2]
    cases specEval _ <;> cases specEval _ <;>
      simp [Option.bind, pypow] <;> split <;> (try split) <;>
      (try split) <;> rfl
  | neg h ih =>
    rw [pyEval, specEval, ih]
    cases specEval _ <;> rfl
  | pi => rfl

/-- Claim C6 (code bug).  The string branch of safe_eval_parameter is
not restricted to literal arithmetic: it evaluates the full expression
language with the math module in scope, so names, attribute access and
function calls are available — eval of math.sin(0) yields 0.0 where the
restricted evaluator the claim describes fails.  The parts of the claim
the code does satisfy are also proved: on the restricted grammar the two
evaluators agree (so coerce("2*pi") = 2*pi, within 0.0001 of 6.2832),
unparsable strings such as "DROP TABLE" yield None, and every failure
returns None rather than raising. -/
theorem C6_eval_not_restricted_to_arithmetic :
    safe_eval_parameter
        (.str (some (.call (.attr (.name "math") "sin") (.lit 0)))) =
      some (.num 0) ∧
    specEval (.call (.attr (.name "math") "sin") (.lit 0)) = none ∧
    safe_eval_parameter
        (.str (some (.call (.attr (.name "math") "sin") (.lit 0)))) ≠
      (specEval (.call (.attr (.name "math") "sin") (.lit 0))).map
        SEOut.num ∧
    (∀ e, ArithOnly e →
      safe_eval_parameter (.str (some e)) = (specEval e).map SEOut.num) ∧
    safe_eval_parameter
        (.str (some (.mul (.lit 2) (.attr (.name "math") "pi")))) =
      some (.num (2 * Real.pi)) ∧
    |2 * Real.pi - 6.2832| < 0.0001 ∧
    safe_eval_parameter (.str none) = none := by
  refine ⟨?_, rfl, ?_, ?_, ?_, ?_, rfl⟩
  · simp [safe_eval_parameter, pyEval, applyMathFn, Real.sin_zero]
  · simp [safe_eval_parameter, pyEval, applyMathFn, Real.sin_zero, specEval]
  · intro e he
    rw [safe_eval_parameter, pyEval_arithOnly e he]
    cases specEval e <;> rfl
  · simp [safe_eval_parameter, pyEval]
  · have h1 := Real.pi_gt_3141592
    have h2 := Real.pi_lt_3141593
    rw [abs_lt]
    constructor <;> nlinarith

/-- Helper: the angles pre-step always yields an anglesOK map. -/
theorem anglesStep_anglesOK (p : ParamMap) : anglesOK (anglesStep p) := by
  rw [anglesStep]
  rcases hp : p.angles with _ | av
  · exact Or.inl hp
  · cases av with
    | nums l =>
      dsimp only
      split
      · exact Or.inr ⟨l, hp, by assumption⟩
      · exact Or.inl rfl
    | malformed => exact Or.inl rfl

/-- Helper: the angles pre-step fixes anglesOK maps. -/
theorem anglesStep_fix (q : ParamMap) (h : anglesOK q) : anglesStep q = q := by
  rw [anglesStep]
  rcases h with h | ⟨l, hl, hcl⟩
  · rw [h]
  · rw [hl]
    dsimp only
    rw [if_pos hcl]

/-- Helper: the conversion step always yields a funcOK map. -/
theorem convStep_funcOK (p : ParamMap) : funcOK (convStep p) := by
  rw [convStep, funcOK]
  rcases p.function with _ | fv
  · exact Or.inl rfl
  · cases fv with
    | num x => exact Or.inr ⟨x, rfl⟩
    | str s => exact Or.inl rfl

/-- Helper: the conversion step fixes funcOK maps. -/
theorem convStep_fix (q : ParamMap) (h : funcOK q) : convStep q = q := by
  rw [convStep]
  rcases h with h | ⟨x, hx⟩
  · rw [h]
    conv_rhs => rw [show q = { q with function := q.function } from rfl]
    rw [h]
  · rw [hx]
    conv_rhs => rw [show q = { q with function := q.function } from rfl]
    rw [hx]

/-- Helper: the bounded loop is the identity when nothing is missing. -/
theorem derivationPasses_fix (req : List PName) (der : PName → List Rule)
    (fuel : Nat) (m : ParamMap) (h : missingList req m = []) :
    derivationPasses req der fuel m = m := by
  cases fuel with
  | zero => rfl
  | succ k => rw [derivationPasses, if_pos h]

/-- Helper: a projection untouched by every pset over the required list
is preserved by one pass. -/
theorem passOnce_proj {α : Type} (P : ParamMap → α) (req : List PName)
    (der : PName → List Rule)
    (hP : ∀ m k v, k ∈ req → P (pset m k v) = P m) (m : ParamMap) :
    P (passOnce req der m) = P m := by
  rw [passOnce]
  have hsub : ∀ k ∈ missingList req m, k ∈ req :=
    fun k hk => (List.mem_filter.mp hk).1
  revert hsub
  generalize missingList req m = L
  induction L generalizing m with
  | nil => intro _ ; rfl
  | cons k ks ih =>
    intro hsub
    rw [List.foldl_cons]
    have hk : k ∈ req := hsub k (List.mem_cons_self k ks)
    have hks : ∀ j ∈ ks, j ∈ req := fun j hj =>
      hsub j (List.mem_cons_of_mem k hj)
    cases firstRule m (der k) with
    | none => exact ih m hks
    | some v => rw [ih (pset m k v) hks, hP m k v hk]

/-- Helper: same preservation through the whole bounded loop. -/
theorem derivationPasses_proj {α : Type} (P : ParamMap → α)
    (req : List PName) (der : PName → List Rule)
    (hP : ∀ m k v, k ∈ req → P (pset m k v) = P m) (fuel : Nat)
    (m : ParamMap) : P (derivationPasses req der fuel m) = P m := by
  induction fuel generalizing m with
  | zero => rfl
  | succ k ih =>
    rw [derivationPasses]
    split
    · rfl
    · rw [ih (passOnce req der m), passOnce_proj P req der hP]

/-- Helper: what a successful visualFinish guarantees. -/
theorem visualFinish_ok_elim (s : ShapeKey) (pre q : ParamMap)
    (h : visualFinish s pre = .ok q) :
    q = derivationPasses (visualRequired s) (visualDerived s) 3 pre ∧
      ∀ r ∈ visualRequired s, pmem q r = true ∧ numericOk q r = true := by
  unfold visualFinish at h
  dsimp only at h
  split at h
  · exact Except.noConfusion h
  · cases h
    refine ⟨rfl, ?_⟩
    intro r hr
    rename_i heq
    have := List.find?_eq_none.mp heq r hr
    simpa using this

/-- Helper: visualFinish succeeds unchanged when every required key is
present and numeric. -/
theorem visualFinish_of_required (s : ShapeKey) (q : ParamMap)
    (hall : ∀ r ∈ visualRequired s,
      pmem q r = true ∧ numericOk q r = true) :
    visualFinish s q = .ok q := by
  have hmiss : missingList (visualRequired s) q = [] := by
    rw [missingList, List.filter_eq_nil_iff]
    intro k hk
    simp [(hall k hk).1]
  have hfind : List.find?
      (fun p => !(pmem q p && numericOk q p)) (visualRequired s) = none := by
    rw [List.find?_eq_none]
    intro x hx
    simp [(hall x hx).1, (hall x hx).2]
  unfold visualFinish
  dsimp only
  rw [derivationPasses_fix _ _ _ _ hmiss, hfind]

/-- Helper: the dispatch of normalize_parameters for triangle shapes. -/
theorem normalize_parameters_tri (s : ShapeKey)
    (hs : isTriangleShape s = true) (p : ParamMap) :
    normalize_parameters s p =
      (normalize_triangle_parameters s p).bind (visualFinish s) := by
  rw [normalize_parameters, if_pos hs]

/-- Helper: dispatch for shapes with no pre-processor. -/
theorem normalize_parameters_other (s : ShapeKey)
    (h1 : isTriangleShape s = false) (h2 : s ≠ .rectangle)
    (h3 : s ≠ .circle) (p : ParamMap) :
    normalize_parameters s p = visualFinish s p := by
  rw [normalize_parameters, h1]
  rw [if_neg (by simp), if_neg h2, if_neg h3]
  rfl

/-- Helper: re-normalizing is the identity for shapes that only run the
generic engine (trigonometric and circle_angle). -/
theorem idem_visual_only (s : ShapeKey) (h1 : isTriangleShape s = false)
    (h2 : s ≠ .rectangle) (h3 : s ≠ .circle) (p q : ParamMap)
    (h : normalize_parameters s p = .ok q) :
    normalize_parameters s q = .ok q := by
  rw [normalize_parameters_other s h1 h2 h3] at h
  obtain ⟨hq, hall⟩ := visualFinish_ok_elim _ _ _ h
  rw [normalize_parameters_other s h1 h2 h3]
  exact visualFinish_of_required _ _ hall

/-- Helper: dispatch for circle. -/
theorem normalize_parameters_circle (p : ParamMap) :
    normalize_parameters .circle p =
      visualFinish .circle (normalize_circle_parameters p) := by
  rw [normalize_parameters]
  rw [if_neg (by simp [isTriangleShape]), if_neg (by simp)]
  rw [if_pos rfl]
  rfl

/-- Helper: the circle entry of the visual registry has no top-level
required list, so the engine accepts anything. -/
theorem visualFinish_circle (q : ParamMap) :
    visualFinish .circle q = .ok q :=
  visualFinish_of_required .circle q
    (fun r hr => absurd hr (List.not_mem_nil r))

/-- Helper: a circle normalization result either carries a radius or is
the unchanged input. -/
theorem circle_branches (p : ParamMap) :
    (normalize_circle_parameters p).radius.isSome = true ∨
      normalize_circle_parameters p = p := by
  rw [normalize_circle_parameters]
  split_ifs with c1 c2 c3 c4
  · exact Or.inl c1
  · exact Or.inl rfl
  · exact Or.inl rfl
  · exact Or.inl rfl
  · exact Or.inr rfl

/-- Helper: normalize_circle_parameters fixes maps that have a radius. -/
theorem circle_fix (q : ParamMap) (h : q.radius.isSome = true) :
    normalize_circle_parameters q = q := by
  rw [normalize_circle_parameters]
  rw [if_pos h]

/-- Helper: normalize_circle_parameters is idempotent. -/
theorem circle_idem (p : ParamMap) :
    normalize_circle_parameters (normalize_circle_parameters p) =
      normalize_circle_parameters p := by
  rcases circle_branches p with h | h
  · exact circle_fix _ h
  · rw [h]
    exact h

/-- Helper: dispatch for rectangle. -/
theorem normalize_parameters_rect (p : ParamMap) :
    normalize_parameters .rectangle p =
      (normalize_square_parameters p).bind (visualFinish .rectangle) := by
  rw [normalize_parameters]
  rw [if_neg (by simp [isTriangleShape]), if_pos rfl]

/-- Helper: rectangle is absent from the visual registry, so the engine
accepts anything. -/
theorem visualFinish_rect (q : ParamMap) :
    visualFinish .rectangle q = .ok q :=
  visualFinish_of_required .rectangle q
    (fun r hr => absurd hr (List.not_mem_nil r))

/-- Helper: normalize_square_parameters is idempotent on success. -/
theorem square_idem (p q : ParamMap)
    (h : normalize_square_parameters p = .ok q) :
    normalize_square_parameters q = .ok q := by
  rw [normalize_square_parameters] at h
  split_ifs at h
  all_goals (try split at h)
  all_goals (try exact Except.noConfusion h)
  all_goals cases h
  all_goals rw [normalize_square_parameters]
  all_goals (try simp_all)
  all_goals (split_ifs <;> simp_all)

/-- Helper: pset never writes leg1. -/
theorem pset_leg1 (m : ParamMap) (k : PName) (v : ℝ) :
    (pset m k v).leg1 = m.leg1 := by
  cases k <;> rfl

/-- Helper: pset never writes leg2. -/
theorem pset_leg2 (m : ParamMap) (k : PName) (v : ℝ) :
    (pset m k v).leg2 = m.leg2 := by
  cases k <;> rfl

/-- Helper: pset never writes side3. -/
theorem pset_side3 (m : ParamMap) (k : PName) (v : ℝ) :
    (pset m k v).side3 = m.side3 := by
  cases k <;> rfl

/-- Helper: pset never writes the single-letter a key. -/
theorem pset_a (m : ParamMap) (k : PName) (v : ℝ) :
    (pset m k v).a = m.a := by
  cases k <;> rfl

/-- Helper: pset never writes the single-letter b key. -/
theorem pset_b (m : ParamMap) (k : PName) (v : ℝ) :
    (pset m k v).b = m.b := by
  cases k <;> rfl

/-- Helper: pset never writes the single-letter c key. -/
theorem pset_c (m : ParamMap) (k : PName) (v : ℝ) :
    (pset m k v).c = m.c := by
  cases k <;> rfl

/-- Helper: pset touches function only at the function key. -/
theorem pset_function_ne (m : ParamMap) (k : PName) (v : ℝ)
    (hne : k ≠ .function) : (pset m k v).function = m.function := by
  cases k <;> first | rfl | exact absurd rfl hne

/-- Helper: pset touches side1 only at the side1 key. -/
theorem pset_side1_ne (m : ParamMap) (k : PName) (v : ℝ)
    (hne : k ≠ .side1) : (pset m k v).side1 = m.side1 := by
  cases k <;> first | rfl | exact absurd rfl hne

/-- Helper: pset touches side2 only at the side2 key. -/
theorem pset_side2_ne (m : ParamMap) (k : PName) (v : ℝ)
    (hne : k ≠ .side2) : (pset m k v).side2 = m.side2 := by
  cases k <;> first | rfl | exact absurd rfl hne

/-- Helper: the leg conversion always clears leg1 and leg2. -/
theorem legAlias_legs (m : ParamMap) :
    (legAlias m).leg1 = none ∧ (legAlias m).leg2 = none := by
  unfold legAlias
  repeat' (first | split | (dsimp only; split))
  all_goals simp_all

/-- Helper: the leg conversion is the identity when no legs are
present. -/
theorem legAlias_fix (m : ParamMap) (h1 : m.leg1 = none)
    (h2 : m.leg2 = none) : legAlias m = m := by
  rw [legAlias, h1]
  dsimp only
  rw [h2]

/-- Helper: the general alias step is the identity when none of the six
legacy keys is present. -/
theorem generalAlias_fix (m : ParamMap) (h1 : m.side1 = none)
    (h2 : m.side2 = none) (h3 : m.side3 = none) (h4 : m.a = none)
    (h5 : m.b = none) (h6 : m.c = none) : generalAlias m = m := by
  simp only [generalAlias, h1, h2, h3, h4, h5, h6]

/-- Helper: the leg conversion preserves the function entry. -/
theorem legAlias_function (m : ParamMap) :
    (legAlias m).function = m.function := by
  unfold legAlias
  repeat' (first | split | (dsimp only; split))
  all_goals rfl

/-- Helper: the general alias step preserves the function entry. -/
theorem generalAlias_function (m : ParamMap) :
    (generalAlias m).function = m.function := by
  unfold generalAlias
  repeat' (first | split | (dsimp only; split))
  all_goals rfl

/-- Helper: triMid for similar_triangles is just the derivation loop. -/
theorem triMid_similar (params n : ParamMap) :
    triMid .similar_triangles params n =
      .ok (derivationPasses (triRequired .similar_triangles)
        (triDerived .similar_triangles) 3 n) := by
  rw [triMid]
  simp [Except.bind]

/-- Helper: triMid for general_triangle is just the derivation loop. -/
theorem triMid_general (params n : ParamMap) :
    triMid .general_triangle params n =
      .ok (derivationPasses (triRequired .general_triangle)
        (triDerived .general_triangle) 3 n) := by
  rw [triMid]
  simp [Except.bind]

/-- Helper: triMid for equilateral_triangle is the equilateral block
followed by the derivation loop. -/
theorem triMid_equilateral (params n : ParamMap) :
    triMid .equilateral_triangle params n =
      (equiBlock n).bind (fun n6 =>
        .ok (derivationPasses (triRequired .equilateral_triangle)
          (triDerived .equilateral_triangle) 3 n6)) := by
  rw [triMid]
  simp [Except.bind]

/-- Helper: triPre for similar_triangles is only the leg conversion. -/
theorem triPre_similar (m : ParamMap) :
    triPre .similar_triangles m = legAlias m := by
  rw [triPre]
  simp

/-- Helper: triPre for equilateral_triangle is only the leg
conversion. -/
theorem triPre_equilateral (m : ParamMap) :
    triPre .equilateral_triangle m = legAlias m := by
  rw [triPre]
  simp

/-- Helper: triPre for general_triangle is the alias steps. -/
theorem triPre_general (m : ParamMap) :
    triPre .general_triangle m = legAlias (generalAlias m) := by
  rw [triPre]
  simp


/-- Helper: the conversion step does not touch angles. -/
theorem convStep_angles (m : ParamMap) : (convStep m).angles = m.angles :=
  rfl

/-- Helper: anglesOK only depends on the angles entry. -/
theorem anglesOK_eq (q r : ParamMap) (h : q.angles = r.angles)
    (hr : anglesOK r) : anglesOK q := by
  rw [anglesOK, h]
  exact hr

/-- Helper: funcOK only depends on the function entry. -/
theorem funcOK_eq (q r : ParamMap) (h : q.function = r.function)
    (hr : funcOK r) : funcOK q := by
  rw [funcOK, h]
  exact hr

/-- Helper: re-normalizing a successful similar_triangles output is the
identity. -/
theorem idem_similar (p q : ParamMap)
    (h : normalize_parameters .similar_triangles p = .ok q) :
    normalize_parameters .similar_triangles q = .ok q := by
  rw [normalize_parameters_tri .similar_triangles rfl] at h
  obtain ⟨pre, hpre, hfin⟩ := except_bind_ok _ _ _ h
  obtain ⟨hq, hall⟩ := visualFinish_ok_elim _ _ _ hfin
  rw [normalize_triangle_parameters, triTail, triPre_similar,
    triMid_similar] at hpre
  injection hpre with hpre
  subst hpre
  have hPvis : ∀ m2 k v, k ∈ visualRequired ShapeKey.similar_triangles →
      (pset m2 k v).function = m2.function := by
    intro m2 k v hk
    apply pset_function_ne
    intro hkf
    rw [hkf] at hk
    exact absurd hk (by decide)
  have hPtri : ∀ m2 k v, k ∈ triRequired ShapeKey.similar_triangles →
      (pset m2 k v).function = m2.function := by
    intro m2 k v hk
    apply pset_function_ne
    intro hkf
    rw [hkf] at hk
    exact absurd hk (by decide)
  have hanglesOK : anglesOK q := by
    refine anglesOK_eq q (anglesStep p) ?_ (anglesStep_anglesOK p)
    rw [hq, derivationPasses_angles, derivationPasses_angles,
      legAlias_angles, convStep_angles]
  have hfunc : funcOK q := by
    refine funcOK_eq q (convStep (anglesStep p)) ?_
      (convStep_funcOK (anglesStep p))
    rw [hq, derivationPasses_proj (fun m2 => m2.function) _ _ hPvis 3 _,
      derivationPasses_proj (fun m2 => m2.function) _ _ hPtri 3 _,
      legAlias_function]
  have hleg1 : q.leg1 = none := by
    rw [hq,
      derivationPasses_proj (fun m2 => m2.leg1) _ _
        (fun m2 k v _ => pset_leg1 m2 k v) 3 _,
      derivationPasses_proj (fun m2 => m2.leg1) _ _
        (fun m2 k v _ => pset_leg1 m2 k v) 3 _]
    exact (legAlias_legs _).1
  have hleg2 : q.leg2 = none := by
    rw [hq,
      derivationPasses_proj (fun m2 => m2.leg2) _ _
        (fun m2 k v _ => pset_leg2 m2 k v) 3 _,
      derivationPasses_proj (fun m2 => m2.leg2) _ _
        (fun m2 k v _ => pset_leg2 m2 k v) 3 _]
    exact (legAlias_legs _).2
  have hmiss : missingList (triRequired .similar_triangles) q = [] := by
    rw [missingList, List.filter_eq_nil_iff]
    intro k hk
    simp [(hall k hk).1]
  rw [normalize_parameters_tri .similar_triangles rfl, normalize_triangle_parameters,
    triTail, anglesStep_fix q hanglesOK, convStep_fix q hfunc,
    triPre_similar, legAlias_fix q hleg1 hleg2, triMid_similar,
    derivationPasses_fix _ _ _ _ hmiss]
  exact visualFinish_of_required _ _ hall

/-- Helper: the angles pre-step touches only the angles entry (leg1). -/
theorem anglesStep_leg1 (m : ParamMap) : (anglesStep m).leg1 = m.leg1 := by
  unfold anglesStep
  repeat' (first | split | (dsimp only; split))
  all_goals rfl

/-- Helper: the angles pre-step touches only the angles entry (leg2). -/
theorem anglesStep_leg2 (m : ParamMap) : (anglesStep m).leg2 = m.leg2 := by
  unfold anglesStep
  repeat' (first | split | (dsimp only; split))
  all_goals rfl

/-- Helper: the general alias step leaves the six source keys empty. -/
theorem generalAlias_clears (m : ParamMap) :
    (generalAlias m).side1 = none ∧ (generalAlias m).side2 = none ∧
    (generalAlias m).side3 = none ∧ (generalAlias m).a = none ∧
    (generalAlias m).b = none ∧ (generalAlias m).c = none := by
  unfold generalAlias
  repeat' (first | split | (dsimp only; split))
  all_goals simp_all

/-- Helper: the general alias step does not touch the legs. -/
theorem generalAlias_legs (m : ParamMap) :
    (generalAlias m).leg1 = m.leg1 ∧ (generalAlias m).leg2 = m.leg2 := by
  unfold generalAlias
  repeat' (first | split | (dsimp only; split))
  all_goals simp_all

/-- Helper: pset touches height only at the height key. -/
theorem pset_height_ne (m : ParamMap) (k : PName) (v : ℝ)
    (hne : k ≠ .height) : (pset m k v).height = m.height := by
  cases k <;> first | rfl | exact absurd rfl hne

/-- Helper: pset touches area only at the area key. -/
theorem pset_area_ne (m : ParamMap) (k : PName) (v : ℝ)
    (hne : k ≠ .area) : (pset m k v).area = m.area := by
  cases k <;> first | rfl | exact absurd rfl hne

/-- Helper: one pass does nothing when every rule fails on the current
map. -/
theorem passOnce_stuck (req : List PName) (der : PName → List Rule)
    (m : ParamMap) (hf : ∀ k, firstRule m (der k) = none) :
    passOnce req der m = m := by
  rw [passOnce]
  generalize missingList req m = L
  induction L with
  | nil => rfl
  | cons k ks ih =>
    rw [List.foldl_cons, hf k]
    exact ih

/-- Helper: the bounded loop does nothing when every rule fails. -/
theorem derivationPasses_stuck (req : List PName) (der : PName → List Rule)
    (fuel : Nat) (m : ParamMap) (hf : ∀ k, firstRule m (der k) = none) :
    derivationPasses req der fuel m = m := by
  induction fuel with
  | zero => rfl
  | succ j ih =>
    rw [derivationPasses]
    split
    · rfl
    · rw [passOnce_stuck req der m hf]
      exact ih

/-- Helper: the possible outcomes of the equilateral block. -/
theorem equiBlock_cases (m n : ParamMap) (h : equiBlock m = .ok n) :
    (∃ H, m.height = some H ∧
      n = { m with side := some (2 * H / Real.sqrt 3) }) ∨
    (m.height = none ∧ ∃ A v, m.area = some A ∧
      pysqrt (4 * A / Real.sqrt 3) = some v ∧
      n = { m with side := some v }) ∨
    (m.height = none ∧ m.area = none ∧ n = m) := by
  rw [equiBlock] at h
  rcases hh : m.height with _ | H
  · rw [hh] at h
    rcases ha : m.area with _ | A
    · rw [ha] at h
      dsimp only at h
      injection h with h
      exact Or.inr (Or.inr ⟨rfl, rfl, h.symm⟩)
    · rw [ha] at h
      dsimp only at h
      rcases hps : pysqrt (4 * A / Real.sqrt 3) with _ | v
      · rw [hps] at h
        exact Except.noConfusion h
      · rw [hps] at h
        injection h with h
        exact Or.inr (Or.inl ⟨rfl, A, v, rfl, hps, h.symm⟩)
  · rw [hh] at h
    dsimp only at h
    injection h with h
    exact Or.inl ⟨H, rfl, h.symm⟩

/-- Helper: re-normalizing a successful general_triangle output is the
identity, provided the raw mapping carried no leg1/leg2 aliases. -/
theorem idem_general (p q : ParamMap) (hp1 : p.leg1 = none)
    (hp2 : p.leg2 = none)
    (h : normalize_parameters .general_triangle p = .ok q) :
    normalize_parameters .general_triangle q = .ok q := by
  rw [normalize_parameters_tri .general_triangle rfl] at h
  obtain ⟨pre, hpre, hfin⟩ := except_bind_ok _ _ _ h
  obtain ⟨hq, hall⟩ := visualFinish_ok_elim _ _ _ hfin
  rw [normalize_triangle_parameters, triTail, triPre_general,
    triMid_general] at hpre
  have hleg1in : (generalAlias (convStep (anglesStep p))).leg1 = none := by
    rw [(generalAlias_legs _).1]
    show (anglesStep p).leg1 = none
    rw [anglesStep_leg1, hp1]
  have hleg2in : (generalAlias (convStep (anglesStep p))).leg2 = none := by
    rw [(generalAlias_legs _).2]
    show (anglesStep p).leg2 = none
    rw [anglesStep_leg2, hp2]
  rw [legAlias_fix _ hleg1in hleg2in] at hpre
  injection hpre with hpre
  subst hpre
  have hanglesOK : anglesOK q := by
    refine anglesOK_eq q (anglesStep p) ?_ (anglesStep_anglesOK p)
    rw [hq, derivationPasses_angles, derivationPasses_angles,
      generalAlias_angles, convStep_angles]
  have hPvis : ∀ m2 k v, k ∈ visualRequired ShapeKey.general_triangle →
      (pset m2 k v).function = m2.function := by
    intro m2 k v hk
    apply pset_function_ne
    intro hkf
    rw [hkf] at hk
    exact absurd hk (by decide)
  have hPtri : ∀ m2 k v, k ∈ triRequired ShapeKey.general_triangle →
      (pset m2 k v).function = m2.function := by
    intro m2 k v hk
    apply pset_function_ne
    intro hkf
    rw [hkf] at hk
    exact absurd hk (by decide)
  have hfunc : funcOK q := by
    refine funcOK_eq q (convStep (anglesStep p)) ?_
      (convStep_funcOK (anglesStep p))
    rw [hq, derivationPasses_proj (fun m2 => m2.function) _ _ hPvis 3 _,
      derivationPasses_proj (fun m2 => m2.function) _ _ hPtri 3 _,
      generalAlias_function]
  have hs1 : q.side1 = none := by
    have hP1 : ∀ m2 k v, k ∈ visualRequired ShapeKey.general_triangle →
        (pset m2 k v).side1 = m2.side1 := by
      intro m2 k v hk
      apply pset_side1_ne
      intro hkf
      rw [hkf] at hk
      exact absurd hk (by decide)
    have hP1t : ∀ m2 k v, k ∈ triRequired ShapeKey.general_triangle →
        (pset m2 k v).side1 = m2.side1 := by
      intro m2 k v hk
      apply pset_side1_ne
      intro hkf
      rw [hkf] at hk
      exact absurd hk (by decide)
    rw [hq, derivationPasses_proj (fun m2 => m2.side1) _ _ hP1 3 _,
      derivationPasses_proj (fun m2 => m2.side1) _ _ hP1t 3 _]
    exact (generalAlias_clears _).1
  have hs2 : q.side2 = none := by
    have hP2 : ∀ m2 k v, k ∈ visualRequired ShapeKey.general_triangle →
        (pset m2 k v).side2 = m2.side2 := by
      intro m2 k v hk
      apply pset_side2_ne
      intro hkf
      rw [hkf] at hk
      exact absurd hk (by decide)
    have hP2t : ∀ m2 k v, k ∈ triRequired ShapeKey.general_triangle →
        (pset m2 k v).side2 = m2.side2 := by
      intro m2 k v hk
      apply pset_side2_ne
      intro hkf
      rw [hkf] at hk
      exact absurd hk (by decide)
    rw [hq, derivationPasses_proj (fun m2 => m2.side2) _ _ hP2 3 _,
      derivationPasses_proj (fun m2 => m2.side2) _ _ hP2t 3 _]
    exact (generalAlias_clears _).2.1
  have hs3 : q.side3 = none := by
    rw [hq,
      derivationPasses_proj (fun m2 => m2.side3) _ _
        (fun m2 k v _ => pset_side3 m2 k v) 3 _,
      derivationPasses_proj (fun m2 => m2.side3) _ _
        (fun m2 k v _ => pset_side3 m2 k v) 3 _]
    exact (generalAlias_clears _).2.2.1
  have ha : q.a = none := by
    rw [hq,
      derivationPasses_proj (fun m2 => m2.a) _ _
        (fun m2 k v _ => pset_a m2 k v) 3 _,
      derivationPasses_proj (fun m2 => m2.a) _ _
        (fun m2 k v _ => pset_a m2 k v) 3 _]
    exact (generalAlias_clears _).2.2.2.1
  have hb : q.b = none := by
    rw [hq,
      derivationPasses_proj (fun m2 => m2.b) _ _
        (fun m2 k v _ => pset_b m2 k v) 3 _,
      derivationPasses_proj (fun m2 => m2.b) _ _
        (fun m2 k v _ => pset_b m2 k v) 3 _]
    exact (generalAlias_clears _).2.2.2.2.1
  have hc : q.c = none := by
    rw [hq,
      derivationPasses_proj (fun m2 => m2.c) _ _
        (fun m2 k v _ => pset_c m2 k v) 3 _,
      derivationPasses_proj (fun m2 => m2.c) _ _
        (fun m2 k v _ => pset_c m2 k v) 3 _]
    exact (generalAlias_clears _).2.2.2.2.2
  have hL1 : q.leg1 = none := by
    rw [hq,
      derivationPasses_proj (fun m2 => m2.leg1) _ _
        (fun m2 k v _ => pset_leg1 m2 k v) 3 _,
      derivationPasses_proj (fun m2 => m2.leg1) _ _
        (fun m2 k v _ => pset_leg1 m2 k v) 3 _]
    exact hleg1in
  have hL2 : q.leg2 = none := by
    rw [hq,
      derivationPasses_proj (fun m2 => m2.leg2) _ _
        (fun m2 k v _ => pset_leg2 m2 k v) 3 _,
      derivationPasses_proj (fun m2 => m2.leg2) _ _
        (fun m2 k v _ => pset_leg2 m2 k v) 3 _]
    exact hleg2in
  have hmiss : missingList (triRequired .general_triangle) q = [] := by
    rw [missingList, List.filter_eq_nil_iff]
    intro k hk
    simp [(hall k hk).1]
  rw [normalize_parameters_tri .general_triangle rfl,
    normalize_triangle_parameters, triTail, anglesStep_fix q hanglesOK,
    convStep_fix q hfunc, triPre_general,
    generalAlias_fix q hs1 hs2 hs3 ha hb hc, legAlias_fix q hL1 hL2,
    triMid_general, derivationPasses_fix _ _ _ _ hmiss]
  exact visualFinish_of_required _ _ hall

/-- Helper: re-normalizing a successful equilateral_triangle output is
the identity. -/
theorem idem_equilateral (p q : ParamMap)
    (h : normalize_parameters .equilateral_triangle p = .ok q) :
    normalize_parameters .equilateral_triangle q = .ok q := by
  rw [normalize_parameters_tri .equilateral_triangle rfl] at h
  obtain ⟨pre, hpre, hfin⟩ := except_bind_ok _ _ _ h
  obtain ⟨hq, hall⟩ := visualFinish_ok_elim _ _ _ hfin
  rw [normalize_triangle_parameters, triTail, triPre_equilateral,
    triMid_equilateral] at hpre
  obtain ⟨n6, heq, hmk⟩ := except_bind_ok _ _ _ hpre
  injection hmk with hmk
  subst hmk
  have hpres : n6.angles = (legAlias (convStep (anglesStep p))).angles ∧
      n6.function = (legAlias (convStep (anglesStep p))).function ∧
      n6.leg1 = (legAlias (convStep (anglesStep p))).leg1 ∧
      n6.leg2 = (legAlias (convStep (anglesStep p))).leg2 ∧
      n6.height = (legAlias (convStep (anglesStep p))).height ∧
      n6.area = (legAlias (convStep (anglesStep p))).area := by
    rcases equiBlock_cases _ _ heq with ⟨H, hH, hn⟩ |
      ⟨hH, A, v, hA, hps, hn⟩ | ⟨hH, hA, hn⟩ <;> subst hn <;>
      exact ⟨rfl, rfl, rfl, rfl, rfl, rfl⟩
  have hanglesOK : anglesOK q := by
    refine anglesOK_eq q (anglesStep p) ?_ (anglesStep_anglesOK p)
    rw [hq, derivationPasses_angles, derivationPasses_angles, hpres.1,
      legAlias_angles, convStep_angles]
  have hPfV : ∀ m2 k v, k ∈ visualRequired ShapeKey.equilateral_triangle →
      (pset m2 k v).function = m2.function := by
    intro m2 k v hk
    apply pset_function_ne
    intro hkf
    rw [hkf] at hk
    exact absurd hk (by decide)
  have hPfT : ∀ m2 k v, k ∈ triRequired ShapeKey.equilateral_triangle →
      (pset m2 k v).function = m2.function := by
    intro m2 k v hk
    apply pset_function_ne
    intro hkf
    rw [hkf] at hk
    exact absurd hk (by decide)
  have hfunc : funcOK q := by
    refine funcOK_eq q (convStep (anglesStep p)) ?_
      (convStep_funcOK (anglesStep p))
    rw [hq, derivationPasses_proj (fun m2 => m2.function) _ _ hPfV 3 _,
      derivationPasses_proj (fun m2 => m2.function) _ _ hPfT 3 _,
      hpres.2.1, legAlias_function]
  have hL1 : q.leg1 = none := by
    rw [hq,
      derivationPasses_proj (fun m2 => m2.leg1) _ _
        (fun m2 k v _ => pset_leg1 m2 k v) 3 _,
      derivationPasses_proj (fun m2 => m2.leg1) _ _
        (fun m2 k v _ => pset_leg1 m2 k v) 3 _,
      hpres.2.2.1]
    exact (legAlias_legs _).1
  have hL2 : q.leg2 = none := by
    rw [hq,
      derivationPasses_proj (fun m2 => m2.leg2) _ _
        (fun m2 k v _ => pset_leg2 m2 k v) 3 _,
      derivationPasses_proj (fun m2 => m2.leg2) _ _
        (fun m2 k v _ => pset_leg2 m2 k v) 3 _,
      hpres.2.2.2.1]
    exact (legAlias_legs _).2
  have hmissq : missingList (triRequired .equilateral_triangle) q = [] := by
    rw [missingList, List.filter_eq_nil_iff]
    intro k hk
    simp [(hall k hk).1]
  have hEq : equiBlock q = .ok q := by
    rcases equiBlock_cases _ _ heq with ⟨H, hH, hn⟩ |
      ⟨hH, A, v, hA, hps, hn⟩ | ⟨hH, hA, hn⟩
    · subst hn
      have hmT : missingList (triRequired .equilateral_triangle)
          { legAlias (convStep (anglesStep p)) with
            side := some (2 * H / Real.sqrt 3) } = [] := by
        rw [missingList, List.filter_eq_nil_iff]
        intro k hk
        have hks : k = PName.side := by
          simpa [triRequired, visualRequired] using hk
        subst hks
        simp [pmem]
      have hmV : missingList (visualRequired .equilateral_triangle)
          { legAlias (convStep (anglesStep p)) with
            side := some (2 * H / Real.sqrt 3) } = [] := by
        rw [missingList, List.filter_eq_nil_iff]
        intro k hk
        have hks : k = PName.side := by
          simpa [triRequired, visualRequired] using hk
        subst hks
        simp [pmem]
      have hq2 : q = { legAlias (convStep (anglesStep p)) with
          side := some (2 * H / Real.sqrt 3) } := by
        rw [hq, derivationPasses_fix _ _ _ _ hmT,
          derivationPasses_fix _ _ _ _ hmV]
      subst hq2
      rw [equiBlock]
      dsimp only
      rw [hH]
    · subst hn
      have hmT : missingList (triRequired .equilateral_triangle)
          { legAlias (convStep (anglesStep p)) with side := some v } = [] := by
        rw [missingList, List.filter_eq_nil_iff]
        intro k hk
        have hks : k = PName.side := by
          simpa [triRequired, visualRequired] using hk
        subst hks
        simp [pmem]
      have hmV : missingList (visualRequired .equilateral_triangle)
          { legAlias (convStep (anglesStep p)) with side := some v } = [] := by
        rw [missingList, List.filter_eq_nil_iff]
        intro k hk
        have hks : k = PName.side := by
          simpa [triRequired, visualRequired] using hk
        subst hks
        simp [pmem]
      have hq2 : q = { legAlias (convStep (anglesStep p)) with
          side := some v } := by
        rw [hq, derivationPasses_fix _ _ _ _ hmT,
          derivationPasses_fix _ _ _ _ hmV]
      subst hq2
      rw [equiBlock]
      dsimp only
      rw [hH]
      dsimp only
      rw [hA]
      dsimp only
      rw [hps]
    · subst hn
      rcases hside : (legAlias (convStep (anglesStep p))).side with _ | w
      · have hfT : ∀ k, firstRule (legAlias (convStep (anglesStep p)))
            (triDerived .equilateral_triangle k) = none := by
          intro k
          cases k <;>
            simp [firstRule, triDerived, applyRule, getSources, pNum,
              hside, hH, hA]
        have hfV : ∀ k, firstRule (legAlias (convStep (anglesStep p)))
            (visualDerived .equilateral_triangle k) = none := by
          intro k
          cases k <;>
            simp [firstRule, visualDerived, triDerived, applyRule,
              getSources, pNum, hside, hH, hA]
        have hq3 : q = legAlias (convStep (anglesStep p)) := by
          rw [hq, derivationPasses_stuck _ _ _ _ hfT,
            derivationPasses_stuck _ _ _ _ hfV]
        have hmemq := (hall .side (by decide)).1
        rw [hq3] at hmemq
        simp [pmem, hside] at hmemq
      · have hmT : missingList (triRequired .equilateral_triangle)
            (legAlias (convStep (anglesStep p))) = [] := by
          rw [missingList, List.filter_eq_nil_iff]
          intro k hk
          have hks : k = PName.side := by
            simpa [triRequired, visualRequired] using hk
          subst hks
          simp [pmem, hside]
        have hmV : missingList (visualRequired .equilateral_triangle)
            (legAlias (convStep (anglesStep p))) = [] := by
          rw [missingList, List.filter_eq_nil_iff]
          intro k hk
          have hks : k = PName.side := by
            simpa [triRequired, visualRequired] using hk
          subst hks
          simp [pmem, hside]
        have hq2 : q = legAlias (convStep (anglesStep p)) := by
          rw [hq, derivationPasses_fix _ _ _ _ hmT,
            derivationPasses_fix _ _ _ _ hmV]
        subst hq2
        rw [equiBlock]
        rw [hH]
        rw [hA]
  rw [normalize_parameters_tri .equilateral_triangle rfl,
    normalize_triangle_parameters, triTail, anglesStep_fix q hanglesOK,
    convStep_fix q hfunc, triPre_equilateral, legAlias_fix q hL1 hL2,
    triMid_equilateral, hEq]
  simp only [Except.bind]
  rw [derivationPasses_fix _ _ _ _ hmissq]
  exact visualFinish_of_required _ _ hall

/-- Helper: an option whose getD 0 is nonzero is that value. -/
theorem opt_of_getD_ne (o : Option ℝ) (h : o.getD 0 ≠ 0) :
    o = some (o.getD 0) := by
  cases o with
  | none => exact absurd rfl h
  | some x => rfl

/-- Helper: a successful pysqrt means a nonnegative radicand. -/
theorem pysqrt_eq_some (x v : ℝ) (h : pysqrt x = some v) :
    0 ≤ x ∧ v = Real.sqrt x := by
  by_cases hx : x < 0
  · rw [pysqrt, if_pos hx] at h
    exact Option.noConfusion h
  · rw [pysqrt, if_neg hx] at h
    injection h with h
    exact ⟨le_of_not_lt hx, h.symm⟩

/-- Helper: pysqrt at zero. -/
theorem pysqrt_zero : pysqrt 0 = some 0 := by
  rw [pysqrt, if_neg (lt_irrefl (0 : ℝ)), Real.sqrt_zero]

/-- Helper: a consistency check that returned ok passed through its
continuation. -/
theorem checkRatio_ok (pv : Option ℝ) (nv : ℝ) (name : PName)
    (k : Except NormErr ParamMap) (n : ParamMap)
    (h : checkRatio pv nv name k = .ok n) : k = .ok n := by
  rcases pv with _ | x
  · exact h
  · rw [checkRatio] at h
    split_ifs at h
    exact h

/-- Helper: a consistency check against a value close to the stored one
is the identity on the continuation. -/
theorem checkRatio_close (pv : Option ℝ) (nv : ℝ) (name : PName)
    (k : Except NormErr ParamMap)
    (hcl : ∀ x, pv = some x → isclose x nv 0.01) :
    checkRatio pv nv name k = k := by
  rcases pv with _ | x
  · rfl
  · rw [checkRatio]
    rw [if_pos (hcl x rfl)]

/-- Helper: with all three Pythagorean keys present the second-chance
branch is the identity. -/
theorem pythProvided_three (n : ParamMap) (h1 : n.side1.isSome = true)
    (h2 : n.side2.isSome = true) (hh : n.hypotenuse.isSome = true) :
    pythProvided n = .ok n := by
  rw [pythProvided]
  have hfil : List.filter (pmem n)
      [PName.side1, PName.side2, PName.hypotenuse] =
      [PName.side1, PName.side2, PName.hypotenuse] := by
    simp [pmem, h1, h2, hh]
  rw [hfil]
  norm_num

/-- Helper: the elif chain never touches function or the legacy legs. -/
theorem pythElif_keeps (m n : ParamMap) (h : pythElif m = .ok n) :
    n.function = m.function ∧ n.leg1 = m.leg1 ∧ n.leg2 = m.leg2 := by
  unfold pythElif at h
  repeat' (first | (split at h) | (dsimp only at h; split at h))
  all_goals (try cases h)
  all_goals exact ⟨rfl, rfl, rfl⟩

/-- Helper: the second-chance branch never touches function or the
legacy legs. -/
theorem pythProvided_keeps (m n : ParamMap) (h : pythProvided m = .ok n) :
    n.function = m.function ∧ n.leg1 = m.leg1 ∧ n.leg2 = m.leg2 := by
  unfold pythProvided at h
  repeat' (first | (split at h) | (dsimp only at h; split at h))
  all_goals (try cases h)
  all_goals exact ⟨rfl, rfl, rfl⟩

/-- Helper: the whole Pythagorean section never touches function or the
legacy legs. -/
theorem pythBlock_keeps (m n : ParamMap) (h : pythBlock m = .ok n) :
    n.function = m.function ∧ n.leg1 = m.leg1 ∧ n.leg2 = m.leg2 := by
  obtain ⟨x, hx, hx2⟩ := except_bind_ok _ _ _ h
  obtain ⟨a1, a2, a3⟩ := pythElif_keeps m x hx
  obtain ⟨b1, b2, b3⟩ := pythProvided_keeps x n hx2
  exact ⟨b1.trans a1, b2.trans a2, b3.trans a3⟩

/-- Helper: the setdefault 30-60-90 block never touches function or the
legacy legs. -/
theorem block3060A_keeps (m : ParamMap) :
    (block3060A m).function = m.function ∧
      (block3060A m).leg1 = m.leg1 ∧ (block3060A m).leg2 = m.leg2 := by
  unfold block3060A
  dsimp only
  repeat' split
  all_goals exact ⟨rfl, rfl, rfl⟩

/-- Helper: the recomputing 30-60-90 block never touches function or the
legacy legs. -/
theorem block3060B_keeps (params m n : ParamMap)
    (h : block3060B params m = .ok n) :
    n.function = m.function ∧ n.leg1 = m.leg1 ∧ n.leg2 = m.leg2 := by
  unfold block3060B checkRatio at h
  repeat' (first | (split at h) | (dsimp only at h; split at h))
  all_goals (try cases h)
  all_goals exact ⟨rfl, rfl, rfl⟩

/-- Helper: triPre for right_triangle with the 30-60-90 angles. -/
theorem triPre_right_A (n0 : ParamMap)
    (h : n0.angles = some (.nums [30, 60, 90])) :
    triPre .right_triangle n0 = legAlias (block3060A n0) := by
  rw [triPre]
  simp [h]

/-- Helper: triPre for right_triangle without the 30-60-90 angles. -/
theorem triPre_right_notA (n0 : ParamMap)
    (h : n0.angles ≠ some (.nums [30, 60, 90])) :
    triPre .right_triangle n0 = legAlias n0 := by
  rw [triPre]
  simp [h]

/-- Helper: triMid for right_triangle is the optional 30-60-90 check
followed by the Pythagorean section. -/
theorem triMid_right_core (params n : ParamMap) :
    triMid .right_triangle params n =
      (if n.angles = some (.nums [30, 60, 90])
       then block3060B params n else .ok n).bind pythBlock := by
  rw [triMid]
  by_cases h : n.angles = some (.nums [30, 60, 90])
  · rw [if_pos ⟨rfl, h⟩, if_pos h]
    cases hB : block3060B params n with
    | error e => rfl
    | ok n4 =>
      dsimp only [Except.bind]
      rw [if_neg (show ¬ShapeKey.right_triangle = ShapeKey.isosceles_triangle
        from by simp)]
      try dsimp only
      rw [if_neg (show ¬ShapeKey.right_triangle =
        ShapeKey.equilateral_triangle from by simp)]
      try dsimp only
      rw [if_pos rfl]
      try dsimp only
      cases hP : pythBlock n4 with
      | error e => rfl
      | ok n7 => rfl
  · rw [if_neg (fun hc => h hc.2), if_neg h]
    dsimp only [Except.bind]
    rw [if_neg (show ¬ShapeKey.right_triangle = ShapeKey.isosceles_triangle
      from by simp)]
    try dsimp only
    rw [if_neg (show ¬ShapeKey.right_triangle =
      ShapeKey.equilateral_triangle from by simp)]
    try dsimp only
    rw [if_pos rfl]
    try dsimp only
    cases hP : pythBlock n with
    | error e => rfl
    | ok n7 => rfl

/-- Helper: the possible outcomes of the recomputing 30-60-90 block. -/
theorem block3060B_cases (params m n : ParamMap)
    (h : block3060B params m = .ok n) :
    (truthy m.hypotenuse ∧ n = { m with
        side1 := some (m.hypotenuse.getD 0 / 2)
        side2 := some (m.hypotenuse.getD 0 * Real.sqrt 3 / 2) }) ∨
    (¬truthy m.hypotenuse ∧ truthy m.side1 ∧ n = { m with
        hypotenuse := some (2 * m.side1.getD 0)
        side2 := some (m.side1.getD 0 * Real.sqrt 3) }) ∨
    (¬truthy m.hypotenuse ∧ ¬truthy m.side1 ∧ truthy m.side2 ∧ n = { m with
        hypotenuse := some (2 * m.side2.getD 0 / Real.sqrt 3)
        side1 := some (m.side2.getD 0 / Real.sqrt 3) }) := by
  rw [block3060B] at h
  try dsimp only at h
  split_ifs at h with h1 h2 h3
  · dsimp only at h
    have h := checkRatio_ok _ _ _ _ _
      (checkRatio_ok _ _ _ _ _ (checkRatio_ok _ _ _ _ _ h))
    injection h with h
    exact Or.inl ⟨h1, h.symm⟩
  · dsimp only at h
    have h := checkRatio_ok _ _ _ _ _
      (checkRatio_ok _ _ _ _ _ (checkRatio_ok _ _ _ _ _ h))
    injection h with h
    exact Or.inr (Or.inl ⟨h1, h2, h.symm⟩)
  · dsimp only at h
    have h := checkRatio_ok _ _ _ _ _
      (checkRatio_ok _ _ _ _ _ (checkRatio_ok _ _ _ _ _ h))
    injection h with h
    exact Or.inr (Or.inr ⟨h1, h2, h3, h.symm⟩)

/-- Helper: the possible outcomes of the Pythagorean elif chain. -/
theorem pythElif_cases (m n : ParamMap) (h : pythElif m = .ok n) :
    (∃ v, m.hypotenuse.getD 0 ≠ 0 ∧ m.side1.getD 0 ≠ 0 ∧
      m.side2.getD 0 = 0 ∧
      pysqrt ((m.hypotenuse.getD 0) ^ 2 - (m.side1.getD 0) ^ 2) = some v ∧
      n = { m with side2 := some v }) ∨
    (∃ v, m.hypotenuse.getD 0 ≠ 0 ∧ m.side2.getD 0 ≠ 0 ∧
      m.side1.getD 0 = 0 ∧
      pysqrt ((m.hypotenuse.getD 0) ^ 2 - (m.side2.getD 0) ^ 2) = some v ∧
      n = { m with side1 := some v }) ∨
    (m.side1.getD 0 ≠ 0 ∧ m.side2.getD 0 ≠ 0 ∧ m.hypotenuse.getD 0 = 0 ∧
      n = { m with
        hypotenuse := some (Real.sqrt ((m.side1.getD 0) ^ 2 + (m.side2.getD 0) ^ 2)) }) ∨
    (¬(m.hypotenuse.getD 0 ≠ 0 ∧ m.side1.getD 0 ≠ 0 ∧
        m.side2.getD 0 = 0) ∧
     ¬(m.hypotenuse.getD 0 ≠ 0 ∧ m.side2.getD 0 ≠ 0 ∧
        m.side1.getD 0 = 0) ∧
     ¬(m.side1.getD 0 ≠ 0 ∧ m.side2.getD 0 ≠ 0 ∧
        m.hypotenuse.getD 0 = 0) ∧
      n = m) := by
  rw [pythElif] at h
  try dsimp only at h
  split_ifs at h with h1 h2 h3
  · rcases hps : pysqrt ((m.hypotenuse.getD 0) ^ 2 - (m.side1.getD 0) ^ 2)
      with _ | v
    · rw [hps] at h
      exact Except.noConfusion h
    · rw [hps] at h
      injection h with h
      exact Or.inl ⟨v, h1.1, h1.2.1, h1.2.2, rfl, h.symm⟩
  · rcases hps : pysqrt ((m.hypotenuse.getD 0) ^ 2 - (m.side2.getD 0) ^ 2)
      with _ | v
    · rw [hps] at h
      exact Except.noConfusion h
    · rw [hps] at h
      injection h with h
      exact Or.inr (Or.inl ⟨v, h2.1, h2.2.1, h2.2.2, rfl, h.symm⟩)
  · injection h with h
    exact Or.inr (Or.inr (Or.inl ⟨h3.1, h3.2.1, h3.2.2, h.symm⟩))
  · injection h with h
    exact Or.inr (Or.inr (Or.inr ⟨h1, h2, h3, h.symm⟩))

/-- Helper: the Pythagorean section is the identity when all three keys
hold zero. -/
theorem pythBlock_fix_zero (q : ParamMap) (hh : q.hypotenuse = some 0)
    (h1 : q.side1 = some 0) (h2 : q.side2 = some 0) :
    pythBlock q = .ok q := by
  rw [pythBlock]
  have hE : pythElif q = .ok q := by
    rw [pythElif]
    simp only [hh, h1, h2, Option.getD_some]
    norm_num
  rw [hE]
  show pythProvided q = .ok q
  exact pythProvided_three q (by simp [h1]) (by simp [h2]) (by simp [hh])

/-- Helper: the Pythagorean section is the identity when all three keys
hold nonzero values. -/
theorem pythBlock_fix_nonzero (q : ParamMap) (h0 s1v s2v : ℝ)
    (hh : q.hypotenuse = some h0) (h1 : q.side1 = some s1v)
    (h2 : q.side2 = some s2v) (hh0 : h0 ≠ 0) (h1v : s1v ≠ 0)
    (h2v : s2v ≠ 0) : pythBlock q = .ok q := by
  rw [pythBlock]
  have hE : pythElif q = .ok q := by
    rw [pythElif]
    simp only [hh, h1, h2, Option.getD_some]
    rw [if_neg (fun hc => h2v hc.2.2), if_neg (fun hc => h1v hc.2.2),
      if_neg (fun hc => hh0 hc.2.2)]
  rw [hE]
  show pythProvided q = .ok q
  exact pythProvided_three q (by simp [h1]) (by simp [h2]) (by simp [hh])

/-- Helper: the Pythagorean section is the identity when the stored
side2 is exactly what its first branch would recompute. -/
theorem pythBlock_fix_c1 (q : ParamMap) (h0 s1v v : ℝ)
    (hh : q.hypotenuse = some h0) (h1 : q.side1 = some s1v)
    (h2 : q.side2 = some v) (hh0 : h0 ≠ 0) (h1v : s1v ≠ 0)
    (hps : pysqrt (h0 ^ 2 - s1v ^ 2) = some v) :
    pythBlock q = .ok q := by
  by_cases hv : v = 0
  · subst hv
    rw [pythBlock]
    have hE : pythElif q = .ok q := by
      rw [pythElif]
      simp only [hh, h1, h2, Option.getD_some]
      rw [if_pos ⟨hh0, h1v, trivial⟩, hps]
      try dsimp only
      exact congrArg Except.ok (by rw [← h2, ← h1, ← hh])
    rw [hE]
    show pythProvided q = .ok q
    exact pythProvided_three q (by simp [h1]) (by simp [h2]) (by simp [hh])
  · exact pythBlock_fix_nonzero q h0 s1v v hh h1 h2 hh0 h1v hv

/-- Helper: the Pythagorean section is the identity when the stored
side1 is exactly what its second branch would recompute. -/
theorem pythBlock_fix_c2 (q : ParamMap) (h0 s2v v : ℝ)
    (hh : q.hypotenuse = some h0) (h1 : q.side1 = some v)
    (h2 : q.side2 = some s2v) (hh0 : h0 ≠ 0) (h2v : s2v ≠ 0)
    (hps : pysqrt (h0 ^ 2 - s2v ^ 2) = some v) :
    pythBlock q = .ok q := by
  by_cases hv : v = 0
  · subst hv
    rw [pythBlock]
    have hE : pythElif q = .ok q := by
      rw [pythElif]
      simp only [hh, h1, h2, Option.getD_some]
      rw [if_neg (fun hc => h2v hc.2.2), if_pos ⟨hh0, h2v, trivial⟩, hps]
      try dsimp only
      exact congrArg Except.ok (by rw [← h1, ← h2, ← hh])
    rw [hE]
    show pythProvided q = .ok q
    exact pythProvided_three q (by simp [h1]) (by simp [h2]) (by simp [hh])
  · exact pythBlock_fix_nonzero q h0 v s2v hh h1 h2 hh0 hv h2v

/-- Helper: an option whose getD 0 is nonzero is present. -/
theorem isSome_of_getD_ne (o : Option ℝ) (h : o.getD 0 ≠ 0) :
    o.isSome = true := by
  cases o with
  | none => exact absurd rfl h
  | some x => rfl

/-- Helper: a successful pass through the Pythagorean section produces a
fixed point of the Pythagorean section. -/
theorem pythBlock_idem (m q : ParamMap) (h : pythBlock m = .ok q) :
    pythBlock q = .ok q := by
  obtain ⟨n, hE, hP⟩ := except_bind_ok _ _ _ h
  rcases pythElif_cases m n hE with
    ⟨v, hh0, h1v, h20, hps, hn⟩ | ⟨v, hh0, h2v, h10, hps, hn⟩ |
    ⟨h1v, h2v, hh00, hn⟩ | ⟨hc1, hc2, hc3, hn⟩
  · subst hn
    have hmh := opt_of_getD_ne _ hh0
    have hm1 := opt_of_getD_ne _ h1v
    have hq3 : pythProvided { m with side2 := some v } =
        .ok { m with side2 := some v } :=
      pythProvided_three _ (isSome_of_getD_ne _ h1v) rfl
        (isSome_of_getD_ne _ hh0)
    rw [hq3] at hP
    injection hP with hP
    subst hP
    exact pythBlock_fix_c1 _ (m.hypotenuse.getD 0) (m.side1.getD 0) v
      hmh hm1 rfl hh0 h1v hps
  · subst hn
    have hmh := opt_of_getD_ne _ hh0
    have hm2 := opt_of_getD_ne _ h2v
    have hq3 : pythProvided { m with side1 := some v } =
        .ok { m with side1 := some v } :=
      pythProvided_three _ rfl (isSome_of_getD_ne _ h2v)
        (isSome_of_getD_ne _ hh0)
    rw [hq3] at hP
    injection hP with hP
    subst hP
    exact pythBlock_fix_c2 _ (m.hypotenuse.getD 0) (m.side2.getD 0) v
      hmh rfl hm2 hh0 h2v hps
  · subst hn
    have hm1 := opt_of_getD_ne _ h1v
    have hm2 := opt_of_getD_ne _ h2v
    have hpos : 0 < (m.side1.getD 0) ^ 2 + (m.side2.getD 0) ^ 2 := by
      have h1p : 0 < (m.side1.getD 0) ^ 2 := pow_two_pos_of_ne_zero h1v
      nlinarith [sq_nonneg (m.side2.getD 0)]
    have hsne :
        Real.sqrt ((m.side1.getD 0) ^ 2 + (m.side2.getD 0) ^ 2) ≠ 0 :=
      ne_of_gt (Real.sqrt_pos.mpr hpos)
    have hq3 : pythProvided { m with
          hypotenuse := some (Real.sqrt ((m.side1.getD 0) ^ 2 + (m.side2.getD 0) ^ 2)) } =
        .ok { m with
          hypotenuse := some (Real.sqrt ((m.side1.getD 0) ^ 2 + (m.side2.getD 0) ^ 2)) } :=
      pythProvided_three _ (isSome_of_getD_ne _ h1v)
        (isSome_of_getD_ne _ h2v) rfl
    rw [hq3] at hP
    injection hP with hP
    subst hP
    exact pythBlock_fix_nonzero _
      (Real.sqrt ((m.side1.getD 0) ^ 2 + (m.side2.getD 0) ^ 2))
      (m.side1.getD 0) (m.side2.getD 0) rfl hm1 hm2 hsne h1v h2v
  · subst hn
    rcases hm1 : n.side1 with _ | x1 <;> rcases hm2 : n.side2 with _ | x2 <;>
      rcases hmh : n.hypotenuse with _ | hx
    · rw [pythProvided] at hP
      try dsimp only at hP
      rw [show List.filter (pmem n)
          [PName.side1, PName.side2, PName.hypotenuse] = ([] : List PName)
          from by simp [List.filter_cons, List.filter_nil, pmem,
            hm1, hm2, hmh]] at hP
      rw [if_neg (by decide)] at hP
      injection hP with hP
      subst hP
      exact h
    · rw [pythProvided] at hP
      try dsimp only at hP
      rw [show List.filter (pmem n)
          [PName.side1, PName.side2, PName.hypotenuse] = [PName.hypotenuse]
          from by simp [List.filter_cons, List.filter_nil, pmem,
            hm1, hm2, hmh]] at hP
      rw [if_neg (by decide)] at hP
      injection hP with hP
      subst hP
      exact h
    · rw [pythProvided] at hP
      try dsimp only at hP
      rw [show List.filter (pmem n)
          [PName.side1, PName.side2, PName.hypotenuse] = [PName.side2]
          from by simp [List.filter_cons, List.filter_nil, pmem,
            hm1, hm2, hmh]] at hP
      rw [if_neg (by decide)] at hP
      injection hP with hP
      subst hP
      exact h
    · -- side1 absent, side2 and hypotenuse present
      rw [pythProvided] at hP
      try dsimp only at hP
      rw [show List.filter (pmem n)
          [PName.side1, PName.side2, PName.hypotenuse] =
          [PName.side2, PName.hypotenuse]
          from by simp [List.filter_cons, List.filter_nil, pmem,
            hm1, hm2, hmh]] at hP
      rw [if_pos (show ([PName.side2, PName.hypotenuse].length = 2) from rfl),
        if_pos (by decide), if_neg (by decide), if_pos (by decide)] at hP
      simp only [hmh, hm2, Option.getD_some] at hP
      rcases hps : pysqrt (hx ^ 2 - x2 ^ 2) with _ | v
      · rw [hps] at hP
        simp at hP
      · rw [hps] at hP
        try dsimp only at hP
        injection hP with hP
        subst hP
        have hd : hx = 0 ∨ x2 = 0 := by
          by_contra hcon
          push_neg at hcon
          apply hc2
          refine ⟨?_, ?_, ?_⟩
          · simpa [hmh] using hcon.1
          · simpa [hm2] using hcon.2
          · simp [hm1]
        obtain ⟨hrad, hveq⟩ := pysqrt_eq_some _ _ hps
        by_cases hhx : hx = 0
        · subst hhx
          have hx2 : x2 = 0 := by nlinarith [sq_nonneg x2]
          subst hx2
          have hv0 : v = 0 := by
            rw [hveq]
            norm_num
          subst hv0
          exact pythBlock_fix_zero _ rfl rfl rfl
        · have hx2 : x2 = 0 := by
            rcases hd with hk | hk
            · exact absurd hk hhx
            · exact hk
          subst hx2
          have hveq2 : v = |hx| := by
            rw [hveq, show hx ^ 2 - (0:ℝ) ^ 2 = hx ^ 2 by ring,
              Real.sqrt_sq_eq_abs]
          have hvne : v ≠ 0 := by
            rw [hveq2]
            exact abs_ne_zero.mpr hhx
          have hps2 : pysqrt (hx ^ 2 - v ^ 2) = some 0 := by
            rw [hveq2, sq_abs, sub_self]
            exact pysqrt_zero
          exact pythBlock_fix_c1 _ hx v 0 rfl rfl rfl hhx hvne hps2
    · rw [pythProvided] at hP
      try dsimp only at hP
      rw [show List.filter (pmem n)
          [PName.side1, PName.side2, PName.hypotenuse] = [PName.side1]
          from by simp [List.filter_cons, List.filter_nil, pmem,
            hm1, hm2, hmh]] at hP
      rw [if_neg (by decide)] at hP
      injection hP with hP
      subst hP
      exact h
    · -- side1 and hypotenuse present, side2 absent
      rw [pythProvided] at hP
      try dsimp only at hP
      rw [show List.filter (pmem n)
          [PName.side1, PName.side2, PName.hypotenuse] =
          [PName.side1, PName.hypotenuse]
          from by simp [List.filter_cons, List.filter_nil, pmem,
            hm1, hm2, hmh]] at hP
      rw [if_pos (show ([PName.side1, PName.hypotenuse].length = 2) from rfl),
        if_pos (by decide), if_pos (by decide)] at hP
      simp only [hmh, hm1, Option.getD_some] at hP
      rcases hps : pysqrt (hx ^ 2 - x1 ^ 2) with _ | v
      · rw [hps] at hP
        simp at hP
      · rw [hps] at hP
        try dsimp only at hP
        injection hP with hP
        subst hP
        have hd : hx = 0 ∨ x1 = 0 := by
          by_contra hcon
          push_neg at hcon
          apply hc1
          refine ⟨?_, ?_, ?_⟩
          · simpa [hmh] using hcon.1
          · simpa [hm1] using hcon.2
          · simp [hm2]
        obtain ⟨hrad, hveq⟩ := pysqrt_eq_some _ _ hps
        by_cases hhx : hx = 0
        · subst hhx
          have hx1 : x1 = 0 := by nlinarith [sq_nonneg x1]
          subst hx1
          have hv0 : v = 0 := by
            rw [hveq]
            norm_num
          subst hv0
          exact pythBlock_fix_zero _ rfl rfl rfl
        · have hx1 : x1 = 0 := by
            rcases hd with hk | hk
            · exact absurd hk hhx
            · exact hk
          subst hx1
          have hveq2 : v = |hx| := by
            rw [hveq, show hx ^ 2 - (0:ℝ) ^ 2 = hx ^ 2 by ring,
              Real.sqrt_sq_eq_abs]
          have hvne : v ≠ 0 := by
            rw [hveq2]
            exact abs_ne_zero.mpr hhx
          have hps2 : pysqrt (hx ^ 2 - v ^ 2) = some 0 := by
            rw [hveq2, sq_abs, sub_self]
            exact pysqrt_zero
          exact pythBlock_fix_c2 _ hx v 0 rfl rfl rfl hhx hvne hps2
    · -- side1 and side2 present, hypotenuse absent
      rw [pythProvided] at hP
      try dsimp only at hP
      rw [show List.filter (pmem n)
          [PName.side1, PName.side2, PName.hypotenuse] =
          [PName.side1, PName.side2]
          from by simp [List.filter_cons, List.filter_nil, pmem,
            hm1, hm2, hmh]] at hP
      rw [if_pos (show ([PName.side1, PName.side2].length = 2) from rfl),
        if_neg (by decide)] at hP
      simp only [hm1, hm2, Option.getD_some] at hP
      injection hP with hP
      subst hP
      have hd : x1 = 0 ∨ x2 = 0 := by
        by_contra hcon
        push_neg at hcon
        apply hc3
        refine ⟨?_, ?_, ?_⟩
        · simpa [hm1] using hcon.1
        · simpa [hm2] using hcon.2
        · simp [hmh]
      by_cases hx1 : x1 = 0
      · by_cases hx2 : x2 = 0
        · subst hx1
          subst hx2
          have hs0 : Real.sqrt ((0:ℝ) ^ 2 + (0:ℝ) ^ 2) = 0 := by norm_num
          rw [hs0]
          exact pythBlock_fix_zero _ rfl rfl rfl
        · subst hx1
          have hne : Real.sqrt ((0:ℝ) ^ 2 + x2 ^ 2) ≠ 0 := by
            rw [show (0:ℝ) ^ 2 + x2 ^ 2 = x2 ^ 2 by ring]
            exact ne_of_gt (Real.sqrt_pos.mpr (pow_two_pos_of_ne_zero hx2))
          have hps2 :
              pysqrt ((Real.sqrt ((0:ℝ) ^ 2 + x2 ^ 2)) ^ 2 - x2 ^ 2) =
                some 0 := by
            rw [Real.sq_sqrt (by positivity)]
            rw [show (0:ℝ) ^ 2 + x2 ^ 2 - x2 ^ 2 = 0 by ring]
            exact pysqrt_zero
          exact pythBlock_fix_c2 _ (Real.sqrt ((0:ℝ) ^ 2 + x2 ^ 2)) x2 0
            rfl rfl rfl hne hx2 hps2
      · have hx2 : x2 = 0 := by
          rcases hd with hk | hk
          · exact absurd hk hx1
          · exact hk
        subst hx2
        have hne : Real.sqrt (x1 ^ 2 + (0:ℝ) ^ 2) ≠ 0 := by
          rw [show x1 ^ 2 + (0:ℝ) ^ 2 = x1 ^ 2 by ring]
          exact ne_of_gt (Real.sqrt_pos.mpr (pow_two_pos_of_ne_zero hx1))
        have hps2 :
            pysqrt ((Real.sqrt (x1 ^ 2 + (0:ℝ) ^ 2)) ^ 2 - x1 ^ 2) =
              some 0 := by
          rw [Real.sq_sqrt (by positivity)]
          rw [show x1 ^ 2 + (0:ℝ) ^ 2 - x1 ^ 2 = 0 by ring]
          exact pysqrt_zero
        exact pythBlock_fix_c1 _ (Real.sqrt (x1 ^ 2 + (0:ℝ) ^ 2)) x1 0
          rfl rfl rfl hne hx1 hps2
    · rw [pythProvided] at hP
      try dsimp only at hP
      rw [show List.filter (pmem n)
          [PName.side1, PName.side2, PName.hypotenuse] =
          [PName.side1, PName.side2, PName.hypotenuse]
          from by simp [List.filter_cons, List.filter_nil, pmem,
            hm1, hm2, hmh]] at hP
      rw [if_neg (by decide)] at hP
      injection hP with hP
      subst hP
      exact h

/-- Helper: a map carrying an exact nonzero 30-60-90 triple with the
matching angles list is a fixed point of the right-triangle
normalizer. -/
theorem rt_rerun_A (q : ParamMap) (H : ℝ) (hH : H ≠ 0)
    (hqh : q.hypotenuse = some H) (hq1 : q.side1 = some (H / 2))
    (hq2 : q.side2 = some (H * Real.sqrt 3 / 2))
    (hang : q.angles = some (.nums [30, 60, 90]))
    (hfun : funcOK q) (hL1 : q.leg1 = none) (hL2 : q.leg2 = none) :
    normalize_parameters .right_triangle q = .ok q := by
  have hangOK : anglesOK q :=
    Or.inr ⟨[30, 60, 90], hang, by norm_num [isclose]⟩
  have hs3 : Real.sqrt 3 ≠ 0 := by positivity
  have h1v : H / 2 ≠ 0 := div_ne_zero hH two_ne_zero
  have h2v : H * Real.sqrt 3 / 2 ≠ 0 :=
    div_ne_zero (mul_ne_zero hH hs3) two_ne_zero
  have hAq : block3060A q = q := by
    rw [block3060A]
    rw [show (!q.side1.isSome && !q.side2.isSome && !q.hypotenuse.isSome) =
      false from by simp [hq1]]
    simp only [Bool.false_eq_true, if_false]
    rw [if_pos (show q.hypotenuse.isSome = true from by simp [hqh])]
    rw [hq1, hq2]
    dsimp only [osetD]
    rw [← hq1, ← hq2]
  have hBB : block3060B q q = .ok q := by
    rw [block3060B]
    try dsimp only
    rw [if_pos (show truthy q.hypotenuse from by
      show q.hypotenuse.getD 0 ≠ 0
      rw [hqh]
      exact hH)]
    have hA1 : ({ q with
        side1 := some (q.hypotenuse.getD 0 / 2)
        side2 := some (q.hypotenuse.getD 0 * Real.sqrt 3 / 2) } :
          ParamMap) = q := by
      rw [hqh, Option.getD_some, ← hq1, ← hq2, ← hqh]
    rw [hA1]
    try dsimp only
    have hcr2 : checkRatio q.side2 (q.side2.getD 0) .side2
        (.ok q : Except NormErr ParamMap) = .ok q :=
      checkRatio_close _ _ _ _ (fun x hx => by
        rw [hx, Option.getD_some]
        exact isclose_point01_refl x)
    have hcr1 : checkRatio q.side1 (q.side1.getD 0) .side1
        (.ok q : Except NormErr ParamMap) = .ok q :=
      checkRatio_close _ _ _ _ (fun x hx => by
        rw [hx, Option.getD_some]
        exact isclose_point01_refl x)
    rw [hcr2, hcr1]
    exact checkRatio_close _ _ _ _ (fun x hx => by
      rw [hx, Option.getD_some]
      exact isclose_point01_refl x)
  rw [normalize_parameters_right_triangle, normalize_triangle_parameters,
    triTail, anglesStep_fix q hangOK, convStep_fix q hfun,
    triPre_right_A q hang, hAq, legAlias_fix q hL1 hL2,
    triMid_right_core, if_pos hang, hBB]
  show pythBlock q = .ok q
  exact pythBlock_fix_nonzero q H (H / 2) (H * Real.sqrt 3 / 2)
    hqh hq1 hq2 hH h1v h2v

/-- Helper: re-normalizing a successful right_triangle output is the
identity. -/
theorem idem_right (p q : ParamMap)
    (h : normalize_parameters .right_triangle p = .ok q) :
    normalize_parameters .right_triangle q = .ok q := by
  rw [normalize_parameters_right_triangle, normalize_triangle_parameters,
    triTail] at h
  have hs3 : Real.sqrt 3 ≠ 0 := by positivity
  by_cases hA : (convStep (anglesStep p)).angles = some (.nums [30, 60, 90])
  · rw [triPre_right_A _ hA, triMid_right_core,
      if_pos (show (legAlias (block3060A (convStep (anglesStep p)))).angles
          = some (.nums [30, 60, 90]) from by
        rw [legAlias_angles, block3060A_angles]
        exact hA)] at h
    obtain ⟨n4, hB, hPy⟩ := except_bind_ok _ _ _ h
    have hang0 : (legAlias (block3060A (convStep (anglesStep p)))).angles
        = some (.nums [30, 60, 90]) := by
      rw [legAlias_angles, block3060A_angles]
      exact hA
    have hfun0 : funcOK
        (legAlias (block3060A (convStep (anglesStep p)))) := by
      refine funcOK_eq _ (convStep (anglesStep p)) ?_ (convStep_funcOK _)
      rw [legAlias_function]
      exact (block3060A_keeps _).1
    have hL10 : (legAlias (block3060A (convStep (anglesStep p)))).leg1 =
        none := (legAlias_legs _).1
    have hL20 : (legAlias (block3060A (convStep (anglesStep p)))).leg2 =
        none := (legAlias_legs _).2
    rcases block3060B_cases _ _ _ hB with ⟨ht, hn4⟩ | ⟨ht, ht1, hn4⟩ |
      ⟨ht, ht1, ht2, hn4⟩
    · have hMh := opt_of_getD_ne _ ht
      have hqh : n4.hypotenuse = some ((legAlias (block3060A (convStep (anglesStep p)))).hypotenuse.getD 0) := by
        rw [hn4]
        exact hMh
      have hq1 : n4.side1 = some ((legAlias (block3060A (convStep (anglesStep p)))).hypotenuse.getD 0 / 2) := by
        rw [hn4]
      have hq2 : n4.side2 =
          some ((legAlias (block3060A (convStep (anglesStep p)))).hypotenuse.getD 0 * Real.sqrt 3 / 2) := by
        rw [hn4]
      have hangq : n4.angles = some (.nums [30, 60, 90]) := by
        rw [hn4]
        exact hang0
      have hfunq : funcOK n4 := by
        rw [hn4]
        exact hfun0
      have hL1q : n4.leg1 = none := by
        rw [hn4]
        exact hL10
      have hL2q : n4.leg2 = none := by
        rw [hn4]
        exact hL20
      have h1v : (legAlias (block3060A (convStep (anglesStep p)))).hypotenuse.getD 0 / 2 ≠ 0 := div_ne_zero ht two_ne_zero
      have h2v : (legAlias (block3060A (convStep (anglesStep p)))).hypotenuse.getD 0 * Real.sqrt 3 / 2 ≠ 0 :=
        div_ne_zero (mul_ne_zero ht hs3) two_ne_zero
      have hfix := pythBlock_fix_nonzero n4 _ _ _ hqh hq1 hq2 ht h1v h2v
      rw [hfix] at hPy
      injection hPy with hPy
      subst hPy
      exact rt_rerun_A n4 _ ht hqh hq1 hq2 hangq hfunq hL1q hL2q
    · have hM1 := opt_of_getD_ne _ ht1
      have hH2 : (2 : ℝ) * (legAlias (block3060A (convStep (anglesStep p)))).side1.getD 0 ≠ 0 :=
        mul_ne_zero two_ne_zero ht1
      have hqh : n4.hypotenuse = some (2 * (legAlias (block3060A (convStep (anglesStep p)))).side1.getD 0) := by
        rw [hn4]
      have hq1 : n4.side1 = some (2 * (legAlias (block3060A (convStep (anglesStep p)))).side1.getD 0 / 2) := by
        rw [hn4, show (2 * (legAlias (block3060A (convStep (anglesStep p)))).side1.getD 0 / 2 : ℝ) =
          (legAlias (block3060A (convStep (anglesStep p)))).side1.getD 0 from by ring]
        exact hM1
      have hq2 : n4.side2 =
          some (2 * (legAlias (block3060A (convStep (anglesStep p)))).side1.getD 0 * Real.sqrt 3 / 2) := by
        rw [hn4, show (2 * (legAlias (block3060A (convStep (anglesStep p)))).side1.getD 0 * Real.sqrt 3 / 2 : ℝ) =
          (legAlias (block3060A (convStep (anglesStep p)))).side1.getD 0 * Real.sqrt 3 from by ring]
      have hangq : n4.angles = some (.nums [30, 60, 90]) := by
        rw [hn4]
        exact hang0
      have hfunq : funcOK n4 := by
        rw [hn4]
        exact hfun0
      have hL1q : n4.leg1 = none := by
        rw [hn4]
        exact hL10
      have hL2q : n4.leg2 = none := by
        rw [hn4]
        exact hL20
      have h1v : 2 * (legAlias (block3060A (convStep (anglesStep p)))).side1.getD 0 / 2 ≠ 0 := by
        rw [show (2 * (legAlias (block3060A (convStep (anglesStep p)))).side1.getD 0 / 2 : ℝ) =
          (legAlias (block3060A (convStep (anglesStep p)))).side1.getD 0 from by ring]
        exact ht1
      have h2v : 2 * (legAlias (block3060A (convStep (anglesStep p)))).side1.getD 0 * Real.sqrt 3 / 2 ≠ 0 := by
        rw [show (2 * (legAlias (block3060A (convStep (anglesStep p)))).side1.getD 0 * Real.sqrt 3 / 2 : ℝ) =
          (legAlias (block3060A (convStep (anglesStep p)))).side1.getD 0 * Real.sqrt 3 from by ring]
        exact mul_ne_zero ht1 hs3
      have hfix := pythBlock_fix_nonzero n4 _ _ _ hqh hq1 hq2 hH2 h1v h2v
      rw [hfix] at hPy
      injection hPy with hPy
      subst hPy
      exact rt_rerun_A n4 _ hH2 hqh hq1 hq2 hangq hfunq hL1q hL2q
    · have hM2 := opt_of_getD_ne _ ht2
      have hH2 : (2 : ℝ) * (legAlias (block3060A (convStep (anglesStep p)))).side2.getD 0 / Real.sqrt 3 ≠ 0 :=
        div_ne_zero (mul_ne_zero two_ne_zero ht2) hs3
      have hqh : n4.hypotenuse =
          some (2 * (legAlias (block3060A (convStep (anglesStep p)))).side2.getD 0 / Real.sqrt 3) := by
        rw [hn4]
      have hq1 : n4.side1 =
          some (2 * (legAlias (block3060A (convStep (anglesStep p)))).side2.getD 0 / Real.sqrt 3 / 2) := by
        rw [hn4, show (2 * (legAlias (block3060A (convStep (anglesStep p)))).side2.getD 0 / Real.sqrt 3 / 2 : ℝ) =
          (legAlias (block3060A (convStep (anglesStep p)))).side2.getD 0 / Real.sqrt 3 from by ring]
      have hq2 : n4.side2 =
          some (2 * (legAlias (block3060A (convStep (anglesStep p)))).side2.getD 0 / Real.sqrt 3 * Real.sqrt 3 / 2) := by
        rw [hn4, show (2 * (legAlias (block3060A (convStep (anglesStep p)))).side2.getD 0 / Real.sqrt 3 *
            Real.sqrt 3 / 2 : ℝ) =
          (legAlias (block3060A (convStep (anglesStep p)))).side2.getD 0 from by field_simp]
        exact hM2
      have hangq : n4.angles = some (.nums [30, 60, 90]) := by
        rw [hn4]
        exact hang0
      have hfunq : funcOK n4 := by
        rw [hn4]
        exact hfun0
      have hL1q : n4.leg1 = none := by
        rw [hn4]
        exact hL10
      have hL2q : n4.leg2 = none := by
        rw [hn4]
        exact hL20
      have h1v : 2 * (legAlias (block3060A (convStep (anglesStep p)))).side2.getD 0 / Real.sqrt 3 / 2 ≠ 0 := by
        rw [show (2 * (legAlias (block3060A (convStep (anglesStep p)))).side2.getD 0 / Real.sqrt 3 / 2 : ℝ) =
          (legAlias (block3060A (convStep (anglesStep p)))).side2.getD 0 / Real.sqrt 3 from by ring]
        exact div_ne_zero ht2 hs3
      have h2v : 2 * (legAlias (block3060A (convStep (anglesStep p)))).side2.getD 0 / Real.sqrt 3 * Real.sqrt 3 / 2 ≠ 0 := by
        rw [show (2 * (legAlias (block3060A (convStep (anglesStep p)))).side2.getD 0 / Real.sqrt 3 *
            Real.sqrt 3 / 2 : ℝ) =
          (legAlias (block3060A (convStep (anglesStep p)))).side2.getD 0 from by field_simp]
        exact ht2
      have hfix := pythBlock_fix_nonzero n4 _ _ _ hqh hq1 hq2 hH2 h1v h2v
      rw [hfix] at hPy
      injection hPy with hPy
      subst hPy
      exact rt_rerun_A n4 _ hH2 hqh hq1 hq2 hangq hfunq hL1q hL2q
  · rw [triPre_right_notA _ hA, triMid_right_core,
      if_neg (show ¬(legAlias (convStep (anglesStep p))).angles =
          some (.nums [30, 60, 90]) from by
        rw [legAlias_angles]
        exact hA)] at h
    have hPy : pythBlock (legAlias (convStep (anglesStep p))) = .ok q := h
    have hang : q.angles = (anglesStep p).angles := by
      rw [pythBlock_angles _ _ hPy, legAlias_angles, convStep_angles]
    have hangOK : anglesOK q :=
      anglesOK_eq q (anglesStep p) hang (anglesStep_anglesOK p)
    have hkeeps := pythBlock_keeps _ _ hPy
    have hfun : funcOK q := by
      refine funcOK_eq q (convStep (anglesStep p)) ?_ (convStep_funcOK _)
      rw [hkeeps.1, legAlias_function]
    have hL1 : q.leg1 = none := by
      rw [hkeeps.2.1]
      exact (legAlias_legs _).1
    have hL2 : q.leg2 = none := by
      rw [hkeeps.2.2]
      exact (legAlias_legs _).2
    have hqA : ¬q.angles = some (.nums [30, 60, 90]) := by
      rw [hang]
      intro hcon
      apply hA
      rw [convStep_angles]
      exact hcon
    rw [normalize_parameters_right_triangle, normalize_triangle_parameters,
      triTail, anglesStep_fix q hangOK, convStep_fix q hfun,
      triPre_right_notA q hqA, legAlias_fix q hL1 hL2,
      triMid_right_core, if_neg hqA]
    show pythBlock q = .ok q
    exact pythBlock_idem _ _ hPy

/-- Claim C5 (amended).  Normalization is idempotent for every shape
except isosceles_triangle, and for general_triangle only when the raw
mapping carries no leg1/leg2 aliases: under those side conditions a
successful output is a fixed point of normalize_parameters. -/
theorem C5_idempotent_except_isosceles (s : ShapeKey) (p q : ParamMap)
    (hs : s ≠ .isosceles_triangle)
    (hlegs : s = .general_triangle → p.leg1 = none ∧ p.leg2 = none)
    (h : normalize_parameters s p = .ok q) :
    normalize_parameters s q = .ok q := by
  cases s with
  | trigonometric =>
    exact idem_visual_only .trigonometric rfl (by simp) (by simp) p q h
  | circle_angle =>
    exact idem_visual_only .circle_angle rfl (by simp) (by simp) p q h
  | right_triangle => exact idem_right p q h
  | equilateral_triangle => exact idem_equilateral p q h
  | similar_triangles => exact idem_similar p q h
  | general_triangle =>
    obtain ⟨h1, h2⟩ := hlegs rfl
    exact idem_general p q h1 h2 h
  | isosceles_triangle => exact absurd rfl hs
  | circle =>
    rw [normalize_parameters_circle, visualFinish_circle] at h
    injection h with h
    rw [normalize_parameters_circle, ← h, circle_idem]
    exact visualFinish_circle _
  | rectangle =>
    rw [normalize_parameters_rect] at h
    obtain ⟨x, hx, hfin⟩ := except_bind_ok _ _ _ h
    rw [visualFinish_rect] at hfin
    injection hfin with hfin
    subst hfin
    rw [normalize_parameters_rect, square_idem _ _ hx]
    exact visualFinish_rect _

/-- Witness for the amended C5 theorem at a concrete circle input. -/
theorem C5_idempotent_witness :
    normalize_parameters .circle { radius := some 2 } =
      .ok { radius := some 2 } :=
  C5_idempotent_except_isosceles .circle { radius := some 2 }
    { radius := some 2 } (by decide)
    (fun hcon => ShapeKey.noConfusion hcon)
    (by
      rw [normalize_parameters_circle,
        circle_fix { radius := some 2 } rfl]
      exact visualFinish_circle _)

/-- Claim C5 (counterexample).  normalize is not idempotent for
isosceles_triangle: from {base: 5, side_b: 4} the first run only fills
equal_sides (the base/equal_sides replacement is skipped because
equal_sides is derived after that block), while the second run, now
seeing both base and equal_sides, rebuilds side_a/side_b/side_c and
returns a strictly larger mapping. -/
theorem C5_isosceles_not_idempotent :
    normalize_parameters .isosceles_triangle
        { side_b := some 4, base := some 5 } =
      .ok { side_b := some 4, base := some 5, equal_sides := some 4 } ∧
    normalize_parameters .isosceles_triangle
        { side_b := some 4, base := some 5, equal_sides := some 4 } =
      .ok { side_a := some 5, side_b := some 4, side_c := some 4,
            base := some 5, equal_sides := some 4 } ∧
    ({ side_a := some 5, side_b := some 4, side_c := some 4,
       base := some 5, equal_sides := some 4 } : ParamMap) ≠
      { side_b := some 4, base := some 5, equal_sides := some 4 } := by
  refine ⟨?_, ?_, ?_⟩
  · have h1 : normalize_triangle_parameters .isosceles_triangle
        { side_b := some 4, base := some 5 } =
        .ok { side_b := some 4, base := some 5, equal_sides := some 4 } := by
      simp [normalize_triangle_parameters, triTail, triPre, triMid,
        anglesStep, convStep, generalAlias, legAlias, isoBlock,
        derivationPasses, passOnce, missingList, firstRule, applyRule,
        getSources, pNum, pmem, pset, triRequired, triDerived,
        bind, Except.bind, pure, Except.pure,
        List.filter_cons, List.filter_nil]
    simp only [normalize_parameters, isTriangleShape, bind, Except.bind]
    norm_num [h1, visualFinish, derivationPasses, missingList, pmem, pNum,
      numericOk, visualRequired, List.filter_cons, List.filter_nil]
  · have h1 : normalize_triangle_parameters .isosceles_triangle
        { side_b := some 4, base := some 5, equal_sides := some 4 } =
        .ok { side_a := some 5, side_b := some 4, side_c := some 4,
              base := some 5, equal_sides := some 4 } := by
      simp [normalize_triangle_parameters, triTail, triPre, triMid,
        anglesStep, convStep, generalAlias, legAlias, isoBlock,
        derivationPasses, passOnce, missingList, firstRule, applyRule,
        getSources, pNum, pmem, pset, triRequired, triDerived,
        bind, Except.bind, pure, Except.pure,
        List.filter_cons, List.filter_nil]
    simp only [normalize_parameters, isTriangleShape, bind, Except.bind]
    norm_num [h1, visualFinish, derivationPasses, missingList, pmem, pNum,
      numericOk, visualRequired, List.filter_cons, List.filter_nil]
  · simp [ParamMap.mk.injEq]

/-- Helper: writing one address leaves the heap size unchanged. -/
theorem len_dwrite (s : PyState) (a : Nat) (d : ParamMap) :
    (dwrite s a d).dicts.length = s.dicts.length := by
  simp [dwrite]

/-- Helper: writing one address leaves every other address unchanged. -/
theorem get_dwrite_ne (s : PyState) (a : Nat) (d : ParamMap) (i : Nat)
    (h : i ≠ a) : (dwrite s a d).dicts.get? i = s.dicts.get? i := by
  rw [dwrite]
  exact List.get?_set_ne d s.dicts (Ne.symm h)

/-- Helper: allocation leaves every live address unchanged. -/
theorem get_dalloc (s : PyState) (d : ParamMap) (i : Nat)
    (h : i < s.dicts.length) :
    (dalloc s d).1.dicts.get? i = s.dicts.get? i := by
  rw [dalloc]
  exact List.get?_append h

/-- Helper: the triangle normalizer writes only to its fresh copy, so
every dictionary the caller already held is unchanged, on success and on
raise alike. -/
theorem triState_frame (shape : ShapeKey) (s : PyState) (pa i : Nat)
    (hi : i < s.dicts.length) :
    (normalize_triangle_parameters_state shape s pa).1.dicts.get? i =
      s.dicts.get? i ∧
    s.dicts.length ≤
      (normalize_triangle_parameters_state shape s pa).1.dicts.length := by
  rw [normalize_triangle_parameters_state]
  simp only [dalloc]
  try dsimp only
  have hne : i ≠ s.dicts.length := Nat.ne_of_lt hi
  split
  · constructor
    · rw [get_dwrite_ne _ _ _ _ hne, get_dwrite_ne _ _ _ _ hne,
        get_dwrite_ne _ _ _ _ hne]
      exact List.get?_append hi
    · rw [len_dwrite, len_dwrite, len_dwrite]
      simp
  · constructor
    · rw [get_dwrite_ne _ _ _ _ hne, get_dwrite_ne _ _ _ _ hne,
        get_dwrite_ne _ _ _ _ hne, get_dwrite_ne _ _ _ _ hne]
      exact List.get?_append hi
    · rw [len_dwrite, len_dwrite, len_dwrite, len_dwrite]
      simp

/-- Helper: the rectangle normalizer writes only to its fresh
dictionary. -/
theorem squareState_frame (s : PyState) (a i : Nat)
    (hi : i < s.dicts.length) :
    (normalize_square_parameters_state s a).1.dicts.get? i =
      s.dicts.get? i ∧
    s.dicts.length ≤
      (normalize_square_parameters_state s a).1.dicts.length := by
  rw [normalize_square_parameters_state]
  simp only [dalloc]
  try dsimp only
  have hne : i ≠ s.dicts.length := Nat.ne_of_lt hi
  split
  · constructor
    · exact List.get?_append hi
    · simp
  · constructor
    · rw [get_dwrite_ne _ _ _ _ hne]
      exact List.get?_append hi
    · rw [len_dwrite]
      simp

/-- Helper: the circle normalizer writes only to its fresh
dictionary. -/
theorem circleState_frame (s : PyState) (a i : Nat)
    (hi : i < s.dicts.length) :
    (normalize_circle_parameters_state s a).1.dicts.get? i =
      s.dicts.get? i ∧
    s.dicts.length ≤
      (normalize_circle_parameters_state s a).1.dicts.length := by
  rw [normalize_circle_parameters_state]
  simp only [dalloc]
  try dsimp only
  have hne : i ≠ s.dicts.length := Nat.ne_of_lt hi
  constructor
  · rw [get_dwrite_ne _ _ _ _ hne]
    exact List.get?_append hi
  · rw [len_dwrite]
    simp

/-- Helper: the shape dispatch of normalize_parameters preserves every
dictionary the caller already held. -/
theorem dispatch_frame (shape : ShapeKey) (s : PyState) (a i : Nat)
    (hi : i < s.dicts.length) :
    ((if isTriangleShape shape then
        normalize_triangle_parameters_state shape s a
      else if shape = .rectangle then normalize_square_parameters_state s a
      else if shape = .circle then normalize_circle_parameters_state s a
      else (s, .ok a)).1.dicts.get? i = s.dicts.get? i) ∧
    s.dicts.length ≤
      (if isTriangleShape shape then
        normalize_triangle_parameters_state shape s a
      else if shape = .rectangle then normalize_square_parameters_state s a
      else if shape = .circle then normalize_circle_parameters_state s a
      else (s, .ok a)).1.dicts.length := by
  split_ifs
  · exact triState_frame shape s a i hi
  · exact squareState_frame s a i hi
  · exact circleState_frame s a i hi
  · exact ⟨rfl, le_refl _⟩

/-- Claim C10.  A normalization call operates only on its own copies: it
never writes through the caller's address (or any other pre-existing
dictionary); the raw mapping the caller passed in is byte-for-byte the
same after the call, whether the call returns a canonical mapping or an
error. -/
theorem C10_caller_dict_frame (shape : ShapeKey) (s : PyState)
    (a i : Nat) (hi : i < s.dicts.length) :
    (normalize_parameters_state shape s a).1.dicts.get? i =
      s.dicts.get? i := by
  rw [normalize_parameters_state]
  obtain ⟨hf, hl⟩ := dispatch_frame shape s a i hi
  rcases hd : (if isTriangleShape shape then
      normalize_triangle_parameters_state shape s a
    else if shape = .rectangle then normalize_square_parameters_state s a
    else if shape = .circle then normalize_circle_parameters_state s a
    else (s, .ok a)) with ⟨s1, r⟩
  rw [hd] at hf hl
  dsimp only at hf hl
  cases r with
  | error e => exact hf
  | ok pa2 =>
    dsimp only
    simp only [dalloc]
    try dsimp only
    have hi1 : i < s1.dicts.length := lt_of_lt_of_le hi hl
    have hne : i ≠ s1.dicts.length := Nat.ne_of_lt hi1
    split
    · rw [get_dwrite_ne _ _ _ _ hne, List.get?_append hi1]
      exact hf
    · rw [get_dwrite_ne _ _ _ _ hne, List.get?_append hi1]
      exact hf

/-- Witness for the C10 frame theorem at a concrete one-dictionary
heap. -/
theorem C10_caller_dict_frame_witness :
    0 < (PyState.mk [{ radius := some 2 }]).dicts.length ∧
    (normalize_parameters_state .circle
        (PyState.mk [{ radius := some 2 }]) 0).1.dicts.get? 0 =
      (PyState.mk [{ radius := some 2 }]).dicts.get? 0 :=
  ⟨by simp, C10_caller_dict_frame .circle
    (PyState.mk [{ radius := some 2 }]) 0 0 (by simp)⟩

end
